import Mathlib

/-!
Verification of the workspace path guard, the git-stash snapshot stack and
the streaming run orchestrator of the builder web application.

The development is a shallow embedding: every definition is translated from
the corresponding TypeScript function (`src/lib/server/fs-apply.ts`,
`src/lib/server/git.ts`, the streaming route handlers and the theme route).
Strings are modelled as lists of characters, the filesystem as association
lists from repo-relative paths to file contents, and the git stash as an
explicit list of labelled patches.
-/

namespace CodexDevday

/-- JavaScript strings are modelled as lists of characters. -/
abbrev Str := List Char

/-- Convert a Lean string literal into the character-list model. -/
def toStr (s : String) : Str := s.data

/-! ### Path model (node `path.resolve` / `path.join` on POSIX paths)

`src/lib/server/fs-apply.ts` calls `path.resolve` and `path.join` and then
compares the resulting strings.  We model a POSIX path string by splitting
it at `/`, dropping empty and `.` segments, resolving `..` segments against
the stack of parent segments (for absolute paths a leading `..` is dropped,
exactly as `path.resolve` does), and re-rendering with `/` separators. -/

/-- Split a path string at `/` separators, dropping empty segments.
The accumulator holds the current (reversed) segment. -/
def splitPathAux : Str → Str → List Str
  | [], acc => if acc = [] then [] else [acc.reverse]
  | c :: cs, acc =>
    if c = '/' then
      if acc = [] then splitPathAux cs []
      else acc.reverse :: splitPathAux cs []
    else splitPathAux cs (c :: acc)

/-- Segments of a path string (empty segments dropped). -/
def splitPath (s : Str) : List Str := splitPathAux s []

/-- One step of segment normalisation: `.` is dropped, `..` pops the last
segment (a no-op at the root, as for absolute `path.resolve`). -/
def normStep (acc : List Str) (seg : Str) : List Str :=
  if seg = ['.'] then acc
  else if seg = ['.', '.'] then acc.dropLast
  else acc ++ [seg]

/-- Normalise a segment list, resolving `.` and `..`. -/
def normalizeSegs (segs : List Str) : List Str := segs.foldl normStep []

/-- Render segments separated by `/` (no leading separator). -/
def joinSegs : List Str → Str
  | [] => []
  | [s] => s
  | s :: t :: rest => s ++ '/' :: joinSegs (t :: rest)

/-- Render an absolute path from its segments. -/
def joinAbs (segs : List Str) : Str := '/' :: joinSegs segs

/-- The workspace root (`process.cwd()`), fixed to a concrete absolute
directory for the model. -/
def WORKSPACE_ROOT : Str := toStr "/workspace"

/-- Make a path absolute the way single-argument `path.resolve` does:
relative paths are joined onto the current working directory. -/
def absolutize (s : Str) : Str :=
  match s with
  | '/' :: _ => s
  | _ => WORKSPACE_ROOT ++ '/' :: s

/-- Normalised segments of the absolute form of a path. -/
def absSegsOf (s : Str) : List Str := normalizeSegs (splitPath (absolutize s))

/-- Model of node `path.resolve(p)`: absolutise, then normalise. -/
def pathResolve (s : Str) : Str := joinAbs (absSegsOf s)

/-- The allow-listed write roots of `fs-apply.ts`
(`app`, `styles` and `public/outputs` under the workspace root). -/
def ALLOWED_ROOTS : List Str :=
  [toStr "/workspace/app", toStr "/workspace/styles", toStr "/workspace/public/outputs"]

/-- Model of `isPathAllowed` (fs-apply.ts): the resolved target must equal a
resolved allowed root or start with that root followed by the separator. -/
def isPathAllowed (targetPath : Str) : Bool :=
  ALLOWED_ROOTS.any fun root =>
    let normalizedRoot := pathResolve root
    let resolved := pathResolve targetPath
    resolved == normalizedRoot || (normalizedRoot ++ ['/']).isPrefixOf resolved

/-- Model of node `path.join(base, ...segments)` for an absolute base:
concatenate with separators, then normalise. -/
def pathJoin (base : Str) (segments : List Str) : Str :=
  joinAbs (normalizeSegs (splitPath (base ++ '/' :: joinSegs segments)))

/-- Model of `resolveWorkspacePath` (fs-apply.ts): join the segments onto the
workspace root and return the result only when `isPathAllowed` accepts it
(`assertPathAllowed` throwing is modelled by `none`). -/
def resolveWorkspacePath (segments : List Str) : Option Str :=
  let resolved := pathJoin WORKSPACE_ROOT segments
  if isPathAllowed resolved then some resolved else none

/-- Spec-side containment predicate, following the specification text: the
normalised absolute form of the candidate equals one of the allowed roots or
is strictly nested under one. -/
def specPathAllowed (targetPath : Str) : Prop :=
  ∃ root ∈ ALLOWED_ROOTS,
    absSegsOf targetPath = absSegsOf root ∨
      (List.IsPrefix (absSegsOf root) (absSegsOf targetPath) ∧
        absSegsOf targetPath ≠ absSegsOf root)

instance (t : Str) : Decidable (specPathAllowed t) := by
  unfold specPathAllowed
  infer_instance

/-! ### Well-formedness of path segments -/

/-- Splitting yields non-empty, separator-free segments. -/
lemma splitPathAux_segOk :
    ∀ (s acc : Str), '/' ∉ acc →
      ∀ seg ∈ splitPathAux s acc, seg ≠ [] ∧ '/' ∉ seg := by
  intro s
  induction s with
  | nil =>
    intro acc hacc seg hseg
    by_cases h : acc = []
    · simp [splitPathAux, h] at hseg
    · simp [splitPathAux, h] at hseg
      subst hseg
      refine ⟨by simpa using h, ?_⟩
      simpa using hacc
  | cons c cs ih =>
    intro acc hacc seg hseg
    by_cases hc : c = '/'
    · by_cases h : acc = []
      · exact ih [] (by simp) seg (by simpa [splitPathAux, hc, h] using hseg)
      · simp [splitPathAux, hc, h] at hseg
        rcases hseg with hseg | hseg
        · subst hseg
          refine ⟨by simpa using h, by simpa using hacc⟩
        · exact ih [] (by simp) seg hseg
    · refine ih (c :: acc) ?_ seg (by simpa [splitPathAux, hc] using hseg)
      intro hmem
      rcases List.mem_cons.mp hmem with h | h
      · exact hc h.symm
      · exact hacc h

/-- Members of a normalisation fold come from the accumulator or the input. -/
lemma mem_normalize_foldl :
    ∀ (segs : List Str) (acc : List Str) (x : Str),
      x ∈ segs.foldl normStep acc → x ∈ acc ∨ x ∈ segs := by
  intro segs
  induction segs with
  | nil => intro acc x hx; exact Or.inl (by simpa using hx)
  | cons seg rest ih =>
    intro acc x hx
    rcases ih (normStep acc seg) x hx with h | h
    · unfold normStep at h
      split at h
      · exact Or.inl h
      · split at h
        · exact Or.inl ((List.dropLast_sublist acc).subset h)
        · rcases List.mem_append.mp h with h | h
          · exact Or.inl h
          · have hx : x = seg := by simpa using h
            exact Or.inr (by simp [hx])
    · exact Or.inr (List.mem_cons_of_mem _ h)

/-- Every normalised absolute segment is non-empty and separator-free. -/
lemma absSegsOf_segOk (s : Str) :
    ∀ seg ∈ absSegsOf s, seg ≠ [] ∧ '/' ∉ seg := by
  intro seg hseg
  rcases mem_normalize_foldl _ [] seg hseg with h | h
  · simp at h
  · exact splitPathAux_segOk _ [] (by simp) seg h

/-! ### Rendering lemmas -/

/-- Rendering distributes over append of non-empty segment lists. -/
lemma joinSegs_append :
    ∀ (l₁ l₂ : List Str), l₁ ≠ [] → l₂ ≠ [] →
      joinSegs (l₁ ++ l₂) = joinSegs l₁ ++ '/' :: joinSegs l₂ := by
  intro l₁
  induction l₁ with
  | nil => intro l₂ h _; exact absurd rfl h
  | cons s rest ih =>
    intro l₂ _ h₂
    cases rest with
    | nil =>
      cases l₂ with
      | nil => exact absurd rfl h₂
      | cons t r => simp [joinSegs]
    | cons t r =>
      have h0 := ih l₂ (by simp) h₂
      calc joinSegs ((s :: t :: r) ++ l₂)
          = s ++ '/' :: joinSegs ((t :: r) ++ l₂) := by simp [joinSegs]
        _ = s ++ '/' :: (joinSegs (t :: r) ++ '/' :: joinSegs l₂) := by rw [h0]
        _ = joinSegs (s :: t :: r) ++ '/' :: joinSegs l₂ := by
            simp [joinSegs, List.append_assoc]

/-- A string splits uniquely at the first separator when the leading parts
are separator-free. -/
lemma slashfree_split :
    ∀ (s₁ s₂ a b : Str), '/' ∉ s₁ → '/' ∉ s₂ →
      s₁ ++ '/' :: a = s₂ ++ '/' :: b → s₁ = s₂ ∧ a = b := by
  intro s₁
  induction s₁ with
  | nil =>
    intro s₂ a b _ h₂ heq
    cases s₂ with
    | nil => simpa using heq
    | cons c s₂' =>
      exfalso
      simp only [List.nil_append, List.cons_append, List.cons.injEq] at heq
      exact h₂ (List.mem_cons.mpr (Or.inl heq.1))
  | cons c s₁' ih =>
    intro s₂ a b h₁ h₂ heq
    cases s₂ with
    | nil =>
      exfalso
      simp only [List.cons_append, List.nil_append, List.cons.injEq] at heq
      exact h₁ (List.mem_cons.mpr (Or.inl heq.1.symm))
    | cons d s₂' =>
      simp only [List.cons_append, List.cons.injEq] at heq
      obtain ⟨hcd, htail⟩ := heq
      have := ih s₂' a b (fun h => h₁ (List.mem_cons_of_mem _ h))
        (fun h => h₂ (List.mem_cons_of_mem _ h)) htail
      exact ⟨by simp [hcd, this.1], this.2⟩

/-- Rendering is injective on well-formed segment lists. -/
lemma joinSegs_inj :
    ∀ (l₁ l₂ : List Str),
      (∀ s ∈ l₁, s ≠ [] ∧ '/' ∉ s) → (∀ s ∈ l₂, s ≠ [] ∧ '/' ∉ s) →
      joinSegs l₁ = joinSegs l₂ → l₁ = l₂ := by
  intro l₁
  induction l₁ with
  | nil =>
    intro l₂ _ h₂ heq
    cases l₂ with
    | nil => rfl
    | cons s rest =>
      exfalso
      cases rest with
      | nil =>
        exact (h₂ s (by simp)).1 (by simpa [joinSegs] using heq.symm)
      | cons t r =>
        have : ([] : Str) = s ++ '/' :: joinSegs (t :: r) := by
          simpa [joinSegs] using heq
        exact absurd this.symm (by simp)
  | cons s₁ rest₁ ih =>
    intro l₂ h₁ h₂ heq
    cases l₂ with
    | nil =>
      exfalso
      cases rest₁ with
      | nil => exact (h₁ s₁ (by simp)).1 (by simpa [joinSegs] using heq)
      | cons t r =>
        have : s₁ ++ '/' :: joinSegs (t :: r) = ([] : Str) := by
          simpa [joinSegs] using heq
        exact absurd this (by simp)
    | cons s₂ rest₂ =>
      cases rest₁ with
      | nil =>
        cases rest₂ with
        | nil => simpa [joinSegs] using heq
        | cons t₂ r₂ =>
          exfalso
          have hs : s₁ = s₂ ++ '/' :: joinSegs (t₂ :: r₂) := by
            simpa [joinSegs] using heq
          exact (h₁ s₁ (by simp)).2 (by simp [hs])
      | cons t₁ r₁ =>
        cases rest₂ with
        | nil =>
          exfalso
          have hs : s₁ ++ '/' :: joinSegs (t₁ :: r₁) = s₂ := by
            simpa [joinSegs] using heq
          exact (h₂ s₂ (by simp)).2 (by simp [← hs])
        | cons t₂ r₂ =>
          have heq' : s₁ ++ '/' :: joinSegs (t₁ :: r₁)
              = s₂ ++ '/' :: joinSegs (t₂ :: r₂) := by
            simpa [joinSegs] using heq
          obtain ⟨hhead, htail⟩ := slashfree_split _ _ _ _
            (h₁ s₁ (by simp)).2 (h₂ s₂ (by simp)).2 heq'
          have := ih (t₂ :: r₂)
            (fun s hs => h₁ s (List.mem_cons_of_mem _ hs))
            (fun s hs => h₂ s (List.mem_cons_of_mem _ hs)) htail
          simp [hhead, this]

/-- If a rendered list extends a rendered non-empty list past a separator,
the segment lists extend accordingly. -/
lemma joinSegs_extends :
    ∀ (l₁ l₂ : List Str),
      (∀ s ∈ l₁, s ≠ [] ∧ '/' ∉ s) → (∀ s ∈ l₂, s ≠ [] ∧ '/' ∉ s) →
      l₁ ≠ [] → ∀ r : Str, joinSegs l₂ = joinSegs l₁ ++ '/' :: r →
      ∃ t, t ≠ [] ∧ l₂ = l₁ ++ t := by
  intro l₁
  induction l₁ with
  | nil => intro l₂ _ _ h; exact absurd rfl h
  | cons s₁ rest₁ ih =>
    intro l₂ h₁ h₂ _ r heq
    cases rest₁ with
    | nil =>
      cases l₂ with
      | nil =>
        exfalso
        have : ([] : Str) = s₁ ++ '/' :: r := by simpa [joinSegs] using heq
        exact absurd this.symm (by simp)
      | cons s₂ rest₂ =>
        cases rest₂ with
        | nil =>
          exfalso
          have hs : s₂ = s₁ ++ '/' :: r := by simpa [joinSegs] using heq
          exact (h₂ s₂ (by simp)).2 (by simp [hs])
        | cons t₂ r₂ =>
          have heq' : s₂ ++ '/' :: joinSegs (t₂ :: r₂) = s₁ ++ '/' :: r := by
            simpa [joinSegs] using heq
          obtain ⟨hhead, _⟩ := slashfree_split _ _ _ _
            (h₂ s₂ (by simp)).2 (h₁ s₁ (by simp)).2 heq'
          exact ⟨t₂ :: r₂, by simp, by simp [hhead]⟩
    | cons t₁ r₁ =>
      cases l₂ with
      | nil =>
        exfalso
        have : ([] : Str) = (s₁ ++ '/' :: joinSegs (t₁ :: r₁)) ++ '/' :: r := by
          simpa [joinSegs] using heq
        exact absurd this.symm (by simp)
      | cons s₂ rest₂ =>
        cases rest₂ with
        | nil =>
          exfalso
          have hs : s₂ = (s₁ ++ '/' :: joinSegs (t₁ :: r₁)) ++ '/' :: r := by
            simpa [joinSegs] using heq
          exact (h₂ s₂ (by simp)).2 (by simp [hs])
        | cons t₂ r₂ =>
          have heq' : s₂ ++ '/' :: joinSegs (t₂ :: r₂)
              = s₁ ++ '/' :: (joinSegs (t₁ :: r₁) ++ '/' :: r) := by
            have h0 : joinSegs (s₂ :: t₂ :: r₂)
                = joinSegs (s₁ :: t₁ :: r₁) ++ '/' :: r := heq
            simp only [joinSegs] at h0
            simpa [List.append_assoc] using h0
          obtain ⟨hhead, htail⟩ := slashfree_split _ _ _ _
            (h₂ s₂ (by simp)).2 (h₁ s₁ (by simp)).2 heq'
          obtain ⟨t, htne, ht⟩ := ih (t₂ :: r₂)
            (fun s hs => h₁ s (List.mem_cons_of_mem _ hs))
            (fun s hs => h₂ s (List.mem_cons_of_mem _ hs))
            (by simp) r htail
          exact ⟨t, htne, by simp [hhead, ht]⟩

/-- The string-level guard check of `isPathAllowed` coincides with
segment-level containment, for well-formed segment lists. -/
lemma guard_check_iff (lr lt : List Str)
    (hr : ∀ s ∈ lr, s ≠ [] ∧ '/' ∉ s) (ht : ∀ s ∈ lt, s ≠ [] ∧ '/' ∉ s)
    (hne : lr ≠ []) :
    (joinAbs lt == joinAbs lr || (joinAbs lr ++ ['/']).isPrefixOf (joinAbs lt)) = true
      ↔ (lt = lr ∨ (List.IsPrefix lr lt ∧ lt ≠ lr)) := by
  rw [Bool.or_eq_true, beq_iff_eq, List.isPrefixOf_iff_prefix]
  constructor
  · rintro (heq | ⟨r, hpre⟩)
    · left
      have : joinSegs lt = joinSegs lr := by
        simpa [joinAbs] using heq
      exact joinSegs_inj _ _ ht hr this
    · right
      have heq' : joinSegs lt = joinSegs lr ++ '/' :: r := by
        have : '/' :: (joinSegs lr ++ '/' :: r) = '/' :: joinSegs lt := by
          simpa [joinAbs, List.append_assoc] using hpre
        simpa using this.symm
      obtain ⟨t, htne, hext⟩ := joinSegs_extends lr lt hr ht hne r heq'
      refine ⟨⟨t, hext.symm⟩, ?_⟩
      intro hcontr
      rw [hcontr] at hext
      exact htne (List.self_eq_append_right.mp hext)
  · rintro (heq | ⟨⟨t, hpre⟩, hne'⟩)
    · left; rw [heq]
    · right
      have htne : t ≠ [] := by
        intro h
        rw [h] at hpre
        exact hne' (by simpa using hpre.symm)
      refine ⟨joinSegs t, ?_⟩
      have : joinSegs lt = joinSegs lr ++ '/' :: joinSegs t := by
        rw [← hpre]
        exact joinSegs_append lr t hne htne
      simp [joinAbs, this, List.append_assoc]

/-- The three allowed roots have well-formed, non-empty segment lists. -/
lemma allowed_roots_ok :
    ∀ root ∈ ALLOWED_ROOTS,
      absSegsOf root ≠ [] ∧ ∀ s ∈ absSegsOf root, s ≠ [] ∧ '/' ∉ s := by
  decide

/-- C1: `isPathAllowed` accepts exactly the paths whose normalised absolute
form equals an allowed root or is strictly nested under one, and
`resolveWorkspacePath` succeeds on exactly those joined paths; in particular
traversal out of an allowed root is rejected and a sibling directory sharing
an allowed root as a string prefix is rejected. -/
theorem c1_path_guard :
    (∀ targetPath : Str, isPathAllowed targetPath = true ↔ specPathAllowed targetPath) ∧
    (∀ segments : List Str,
      (resolveWorkspacePath segments).isSome = true
        ↔ specPathAllowed (pathJoin WORKSPACE_ROOT segments)) ∧
    resolveWorkspacePath [toStr "app", toStr "../../etc/passwd"] = none ∧
    isPathAllowed (toStr "/workspace/appsecret/leak.txt") = false ∧
    isPathAllowed (toStr "/workspace/app/page.tsx") = true := by
  have hmain : ∀ targetPath : Str,
      isPathAllowed targetPath = true ↔ specPathAllowed targetPath := by
    intro t
    unfold isPathAllowed specPathAllowed
    rw [List.any_eq_true]
    constructor
    · rintro ⟨root, hroot, hcheck⟩
      refine ⟨root, hroot, ?_⟩
      have hok := allowed_roots_ok root hroot
      exact (guard_check_iff (absSegsOf root) (absSegsOf t)
        hok.2 (absSegsOf_segOk t) hok.1).mp hcheck
    · rintro ⟨root, hroot, hspec⟩
      refine ⟨root, hroot, ?_⟩
      have hok := allowed_roots_ok root hroot
      exact (guard_check_iff (absSegsOf root) (absSegsOf t)
        hok.2 (absSegsOf_segOk t) hok.1).mpr hspec
  refine ⟨hmain, ?_, by decide, by decide, by decide⟩
  intro segments
  unfold resolveWorkspacePath
  by_cases h : isPathAllowed (pathJoin WORKSPACE_ROOT segments) = true
  · simpa [h] using (hmain (pathJoin WORKSPACE_ROOT segments)).mp h
  · have hnot : ¬ specPathAllowed (pathJoin WORKSPACE_ROOT segments) :=
      fun hc => h ((hmain _).mpr hc)
    simp only [Bool.not_eq_true] at h
    simpa [h] using hnot

/-- Witness for C1 at a concrete accepted path. -/
theorem c1_path_guard_witness :
    isPathAllowed (toStr "/workspace/styles/theme.css") = true :=
  (c1_path_guard.1 (toStr "/workspace/styles/theme.css")).mpr (by decide)

/-! ### Image references of the agent-run payload

The agent-run route with image support (`parsePayload`, `createThreadInput`,
`resolveImagePath`) accepts local media references.  `resolveImagePath` only
trims the string, makes it absolute against the workspace root and
normalises it; no allow-list check appears anywhere on this code path. -/

/-- ASCII whitespace (the whitespace handled by the model of JS `trim`). -/
def isWsp (c : Char) : Bool := c = ' ' || c = '\t' || c = '\n' || c = '\r'

/-- Model of JS `String.prototype.trim` (ASCII whitespace). -/
def trimStr (s : Str) : Str := ((s.dropWhile isWsp).reverse.dropWhile isWsp).reverse

/-- Model of `path.isAbsolute` on POSIX paths. -/
def isAbsolutePath (s : Str) : Bool :=
  match s with
  | '/' :: _ => true
  | _ => false

/-- Model of `path.normalize` on an absolute path. -/
def pathNormalize (s : Str) : Str := joinAbs (normalizeSegs (splitPath s))

/-- Model of `resolveImagePath` (agent-run route): trim the reference, make it
absolute against the workspace root when relative, and normalise.  The
function performs no allow-list validation. -/
def resolveImagePath (imagePath : Str) : Str :=
  let normalized := trimStr imagePath
  if normalized = [] then WORKSPACE_ROOT
  else
    let absolute :=
      if isAbsolutePath normalized then normalized
      else WORKSPACE_ROOT ++ '/' :: normalized
    pathNormalize absolute

/-- One item of a structured agent thread input. -/
inductive InputItem
  | text (t : Str)
  | localImage (path : Str)
deriving DecidableEq, Repr

/-- Model of the SDK `Input` type: a plain prompt or a list of items. -/
inductive ThreadInput
  | plain (prompt : Str)
  | items (l : List InputItem)
deriving DecidableEq, Repr

/-- Model of `createThreadInput` (agent-run route): the prompt alone when no
images are given, otherwise a text item followed by one local-image item per
resolved reference. -/
def createThreadInput (prompt : Str) (images : List Str) : ThreadInput :=
  if images.isEmpty then .plain prompt
  else .items (.text prompt ::
    images.map fun imagePath => .localImage (resolveImagePath imagePath))

/-- The validated agent-run payload. -/
structure RunPayload where
  prompt : Str
  images : Option (List Str)
deriving DecidableEq, Repr

/-- Model of `parsePayload` (agent-run route with images): requires a
non-empty trimmed prompt; keeps the non-empty trimmed image strings when any
remain.  (Non-string JSON entries are filtered out before this typed model.) -/
def parsePayload (promptRaw : Option Str) (imagesRaw : Option (List Str)) :
    Except Str RunPayload :=
  match promptRaw with
  | none => .error (toStr "Prompt is required")
  | some rawPrompt =>
    let prompt := trimStr rawPrompt
    if prompt = [] then .error (toStr "Prompt is required")
    else
      let images :=
        match imagesRaw with
        | some rawImages =>
          let entries := (rawImages.map trimStr).filter fun v => !v.isEmpty
          if 0 < entries.length then some entries else none
        | none => none
      .ok { prompt := prompt, images := images }

/-- C2 counterexample: an image reference whose normalised absolute form lies
outside every allow-listed root passes payload validation and is included
verbatim in the thread input sent to the external agent; no Workspace Path
Guard check rejects it. -/
theorem c2_image_guard_counterexample :
    parsePayload (some (toStr "restyle")) (some [toStr "../../etc/passwd"]) =
      .ok { prompt := toStr "restyle", images := some [toStr "../../etc/passwd"] } ∧
    resolveImagePath (toStr "../../etc/passwd") = toStr "/etc/passwd" ∧
    isPathAllowed (toStr "/etc/passwd") = false ∧
    createThreadInput (toStr "restyle") [toStr "../../etc/passwd"] =
      .items [.text (toStr "restyle"), .localImage (toStr "/etc/passwd")] :=
  ⟨by rfl, by decide, by decide, by decide⟩

/-- C2 amended: accepted local media references are trimmed, resolved to
normalised absolute paths against the workspace root and passed to the agent
without any allow-list validation; in particular a reference may resolve
outside every allow-listed root. -/
theorem c2_image_guard_amended :
    (∀ (prompt : Str) (images : List Str), images ≠ [] →
      createThreadInput prompt images =
        .items (.text prompt ::
          images.map fun imagePath => .localImage (resolveImagePath imagePath))) ∧
    (∃ imagePath : Str, isPathAllowed (resolveImagePath imagePath) = false ∧
      createThreadInput (toStr "p") [imagePath] =
        .items [.text (toStr "p"), .localImage (resolveImagePath imagePath)]) := by
  constructor
  · intro prompt images h
    simp [createThreadInput, h]
  · exact ⟨toStr "../../etc/passwd", by decide, by decide⟩

/-- Witness for the amended C2 at a concrete image list. -/
theorem c2_image_guard_amended_witness :
    createThreadInput (toStr "p") [toStr "x.png"] =
      .items [.text (toStr "p"), .localImage (resolveImagePath (toStr "x.png"))] :=
  c2_image_guard_amended.1 (toStr "p") [toStr "x.png"] (by decide)

/-! ### File trees and structured patches

`git.ts` shells out to git.  The model makes the relevant git state explicit:
the committed tree (`HEAD`), the working tree, the stash (a list of labelled
patches, most recent first, `stash@\x7bi\x7d` being index `i`), the persisted
snapshot index file and a clock for `Date.now()`.  All files are treated as
tracked; patches are kept structurally (path with old/new content, `none`
standing for the `/dev/null` side of a creation or deletion) rather than as
unified-diff text. -/

/-- A tree of files: an association list from repo-relative paths to contents. -/
abbrev Tree := List (Str × Str)

/-- Content of a path in a tree. -/
def lookupT (t : Tree) (p : Str) : Option Str := (t.find? fun e => e.1 == p).map (·.2)

/-- Remove a path from a tree. -/
def removeT (t : Tree) (p : Str) : Tree := t.filter fun e => !(e.1 == p)

/-- Write (or delete, for `none`) a path in a tree. -/
def setOptT (t : Tree) (p : Str) (c : Option Str) : Tree :=
  match c with
  | none => removeT t p
  | some v => (p, v) :: removeT t p

/-- One file of a structured patch; `none` models the `/dev/null` side. -/
structure PatchEntry where
  path : Str
  oldContent : Option Str
  newContent : Option Str
deriving DecidableEq, Repr

/-- A structured patch. -/
abbrev Patch := List PatchEntry

/-- Structured diff between two trees (the patch `git stash push` records and
`git stash show --patch` prints). -/
def diffT (base target : Tree) : Patch :=
  ((base.map (·.1) ++ target.map (·.1)).dedup).filterMap fun p =>
    let o := lookupT base p
    let n := lookupT target p
    if o = n then none else some ⟨p, o, n⟩

/-- Model of `extractPathsFromPatch`: the `--- a/` and `+++ b/` paths of the
unified diff with `/dev/null` skipped; in the structured model every entry
contributes its path on at least one side. -/
def extractPathsFromPatch (patch : Patch) : List Str := (patch.map (·.path)).dedup

/-- Model of `git apply`: clean-context application; any context mismatch
fails the whole command. -/
def applyPatch (wt : Tree) : Patch → Except Str Tree
  | [] => .ok wt
  | e :: rest =>
    if lookupT wt e.path = e.oldContent then
      applyPatch (setOptT wt e.path e.newContent) rest
    else .error (toStr "patch does not apply")

/-- The persisted index file `.codex-snapshots.json`, classified by how
`readFile` plus `JSON.parse` behave on it. -/
inductive IndexFile
  | missing
  | unreadable
  | invalidJson
  | jsonNonArray
  | jsonArray (labels : List Str)
deriving DecidableEq, Repr

/-- One stash entry: the subject shown by `%gs` and the recorded patch. -/
structure StashEntry where
  subject : Str
  patch : Patch
deriving DecidableEq, Repr

/-- The explicit git state threaded through every modelled operation. -/
structure GitState where
  isRepo : Bool
  head : Tree
  worktree : Tree
  stash : List StashEntry
  indexFile : IndexFile
  now : Nat
deriving DecidableEq, Repr

/-- Model of `readSnapshotStack`: every failure mode (missing file, read
error, invalid JSON, JSON that is not an array) yields the empty stack. -/
def readSnapshotStack : IndexFile → List Str
  | .jsonArray labels => labels
  | _ => []

/-- Model of `writeSnapshotStack`. -/
def writeSnapshotStack (st : GitState) (entries : List Str) : GitState :=
  { st with indexFile := .jsonArray entries }

/-- Model of `git status --porcelain` reporting uncommitted changes. -/
def workspaceHasChanges (st : GitState) : Bool := !(diffT st.head st.worktree).isEmpty

/-- The label prefix of git.ts. -/
def SNAPSHOT_PREFIX : Str := toStr "codex-snapshot"

/-- Decimal digit string of the model clock (`Date.now()` rendering). -/
def natChars (n : Nat) : Str := Nat.toDigits 10 n

/-- The label `codex-snapshot:<epoch-ms>:<purpose>`. -/
def mkSnapshotLabel (now : Nat) (purpose : Str) : Str :=
  SNAPSHOT_PREFIX ++ ':' :: natChars now ++ ':' :: purpose

/-- Stash subject as printed by `git stash list --format=%gd::%gs` for an
entry pushed with `--message <label>` (git prepends the branch). -/
def stashSubject (label : Str) : Str := toStr "On main: " ++ label

/-- Model of JS `String.prototype.includes`: substring containment. -/
def includesStr (hay needle : Str) : Bool :=
  match hay with
  | [] => needle.isPrefixOf []
  | c :: t => needle.isPrefixOf (c :: t) || includesStr t needle

/-- The `entry.label.includes(label)` check of git.ts. -/
def labelMatches (subject label : Str) : Bool := includesStr subject label

/-- Model of `listStashEntries`: refs are positions in the current stash. -/
def listStashEntries (st : GitState) : List (Nat × StashEntry) := st.stash.enum

/-- Whether some listed stash entry matches a stack label. -/
def hasMatch (entries : List (Nat × StashEntry)) (label : Str) : Bool :=
  entries.any fun e => labelMatches e.2.subject label

/-- Model of `filterSnapshotStack`: prune stack labels without a matching
stash entry, persisting the filtered stack when anything was pruned. -/
def filterSnapshotStack (st : GitState) (stack : List Str) :
    (List Str × List (Nat × StashEntry)) × GitState :=
  let entries := listStashEntries st
  let filtered := stack.filter (hasMatch entries)
  let st' := if filtered.length ≠ stack.length then writeSnapshotStack st filtered else st
  ((filtered, entries), st')

/-- Model of `createSnapshot`: nothing to snapshot without a repository or
without uncommitted changes; otherwise stash all changes (including
untracked files) under a fresh label, re-apply the top of stash (failure to
re-apply is logged and non-fatal), append the label to the persisted stack
and return it. -/
def createSnapshot (purpose : Str) (st : GitState) : Option Str × GitState :=
  if !st.isRepo then (none, st)
  else if !(workspaceHasChanges st) then (none, st)
  else
    let snapshotLabel := mkSnapshotLabel st.now purpose
    let patch := diffT st.head st.worktree
    let st1 : GitState := { st with
      stash := ⟨stashSubject snapshotLabel, patch⟩ :: st.stash,
      worktree := st.head,
      now := st.now + 1 }
    let st2 : GitState :=
      match applyPatch st1.worktree patch with
      | .ok wt => { st1 with worktree := wt }
      | .error _ => st1
    let stack := readSnapshotStack st2.indexFile
    (some snapshotLabel, writeSnapshotStack st2 (stack ++ [snapshotLabel]))

/-- Model of `git stash show --patch <ref>`.  Without `-u` the command prints
only the tracked-file portion of the stash: entries for files the stash
created (absent from HEAD, captured via `--include-untracked`) are omitted
from its output. -/
def getPatchForRef (st : GitState) (ref : Nat) : Except Str Patch :=
  match st.stash[ref]? with
  | some e => .ok (e.patch.filter (fun en => en.oldContent.isSome))
  | none => .error (toStr "unknown stash ref")

/-- Model of `git stash drop <ref>`. -/
def stashDrop (st : GitState) (ref : Nat) : Except Str GitState :=
  if ref < st.stash.length then .ok { st with stash := st.stash.eraseIdx ref }
  else .error (toStr "unknown stash ref")

/-- Model of `git checkout -- <paths>`: restore each path from HEAD; a path
unknown to HEAD fails the command. -/
def checkoutPaths (st : GitState) : List Str → Except Str GitState
  | [] => .ok st
  | p :: rest =>
    match lookupT st.head p with
    | some content =>
      checkoutPaths { st with worktree := setOptT st.worktree p (some content) } rest
    | none => .error (toStr "pathspec did not match")

/-- Result record of `applyLatestSnapshot`. -/
structure ApplyResult where
  applied : Bool
  remaining : Option Nat
  reason : Option Str
deriving DecidableEq, Repr

/-- The tail of one `applyLatestSnapshot` loop iteration after the popped
snapshot was dropped and checked out: re-filter the remaining stack and
re-materialise the next snapshot down by checking out its paths and applying
its patch. -/
def restoreNext (stack : List Str) (st : GitState) : Except Str ApplyResult × GitState :=
  match filterSnapshotStack st stack with
  | ((stack2, entries2), st5) =>
    match stack2.getLast? with
    | none =>
      (.ok { applied := true, remaining := some stack2.length, reason := none }, st5)
    | some latestLabel =>
      match entries2.find? (fun e => labelMatches e.2.subject latestLabel) with
      | none =>
        (.ok { applied := true, remaining := some stack2.length, reason := none }, st5)
      | some latest =>
        match getPatchForRef st5 latest.1 with
        | .error e => (.error e, st5)
        | .ok latestPatch =>
          let latestPaths := extractPathsFromPatch latestPatch
          match checkoutPaths st5 latestPaths with
          | .error e => (.error e, st5)
          | .ok st6 =>
            match applyPatch st6.worktree latestPatch with
            | .error e => (.error e, st6)
            | .ok wt =>
              (.ok { applied := true, remaining := some stack2.length, reason := none },
                { st6 with worktree := wt })

/-- The `while (stack.length > 0)` loop of `applyLatestSnapshot`; the stack
holds oldest-first labels and `pop` takes the last.  A first-component
`Except.error` models an exception escaping the function; the state is
returned in either case. -/
def applyLoop (stack0 : List Str) (entries : List (Nat × StashEntry)) (st : GitState) :
    Except Str ApplyResult × GitState :=
  if hne : stack0 = [] then
    (.ok { applied := false, remaining := none, reason := some (toStr "No snapshots available") },
      writeSnapshotStack st stack0)
  else
    let snapshotLabel := stack0.getLast hne
    let stack := stack0.dropLast
    match entries.find? (fun e => labelMatches e.2.subject snapshotLabel) with
    | none => applyLoop stack entries st
    | some target =>
      match getPatchForRef st target.1 with
      | .error e => (.error e, st)
      | .ok targetPatch =>
        let targetPaths := extractPathsFromPatch targetPatch
        match stashDrop st target.1 with
        | .error e => (.error e, writeSnapshotStack st (stack ++ [snapshotLabel]))
        | .ok st2 =>
          let st3 := writeSnapshotStack st2 stack
          match checkoutPaths st3 targetPaths with
          | .error e => (.error e, st3)
          | .ok st4 =>
            if stack.isEmpty then
              (.ok { applied := true, remaining := some 0, reason := none }, st4)
            else restoreNext stack st4
termination_by stack0.length
decreasing_by
  simp only [List.length_dropLast]
  have h1 : 0 < stack0.length := List.length_pos.mpr hne
  omega

/-- Model of `applyLatestSnapshot` (git.ts). -/
def applyLatestSnapshot (st : GitState) : Except Str ApplyResult × GitState :=
  if !st.isRepo then
    (.ok { applied := false, remaining := none,
           reason := some (toStr "Repository not initialised") }, st)
  else
    let stack := readSnapshotStack st.indexFile
    match filterSnapshotStack st stack with
    | ((filtered, entries), st1) => applyLoop filtered entries st1

/-- Result record of `getSnapshotSummary`. -/
structure SnapshotSummary where
  hasSnapshots : Bool
  snapshots : List Str
deriving DecidableEq, Repr

/-- Model of `getSnapshotSummary` (git.ts). -/
def getSnapshotSummary (st : GitState) : SnapshotSummary × GitState :=
  let stack := readSnapshotStack st.indexFile
  match filterSnapshotStack st stack with
  | ((filtered, _), st1) =>
    ({ hasSnapshots := decide (0 < filtered.length), snapshots := filtered }, st1)

/-- Result record of `dropSnapshot`. -/
structure DropResult where
  dropped : Bool
  reason : Option Str
deriving DecidableEq, Repr

/-- Remove the last occurrence of a label (JS `lastIndexOf` plus `splice`). -/
def removeLastOcc (stack : List Str) (label : Str) : List Str :=
  ((stack.reverse).erase label).reverse

/-- Model of `dropSnapshot` (git.ts). -/
def dropSnapshot (snapshotLabel : Str) (st : GitState) : DropResult × GitState :=
  let stack := readSnapshotStack st.indexFile
  if snapshotLabel ∈ stack then
    let st1 := writeSnapshotStack st (removeLastOcc stack snapshotLabel)
    let entries := listStashEntries st1
    match entries.find? (fun e => labelMatches e.2.subject snapshotLabel) with
    | some target =>
      match stashDrop st1 target.1 with
      | .ok st2 => ({ dropped := true, reason := none }, st2)
      | .error _ => ({ dropped := false, reason := some (toStr "drop_failed") }, st1)
    | none => ({ dropped := true, reason := none }, st1)
  else
    ({ dropped := false, reason := some (toStr "not_found") }, st)

/-! ### Basic lemmas about the git model -/

/-- Reflexivity of the boolean prefix test. -/
lemma isPrefixOf_refl (l : Str) : l.isPrefixOf l = true :=
  List.isPrefixOf_iff_prefix.mpr (List.prefix_refl l)

/-- A string contains any of its suffixes. -/
lemma includesStr_append_self (pre l : Str) : includesStr (pre ++ l) l = true := by
  induction pre with
  | nil =>
    cases l with
    | nil => simp [includesStr, List.isPrefixOf]
    | cons c t => simp [includesStr, isPrefixOf_refl]
  | cons c pre ih => simp [includesStr, ih]

/-- A snapshot label matches its own stash subject. -/
lemma labelMatches_self (label : Str) :
    labelMatches (stashSubject label) label = true :=
  includesStr_append_self (toStr "On main: ") label

/-- Reading back a written stack. -/
lemma readSnapshotStack_write (st : GitState) (l : List Str) :
    readSnapshotStack (writeSnapshotStack st l).indexFile = l := rfl

/-- Lookup on a cons cell. -/
lemma lookupT_cons (e : Str × Str) (t : Tree) (q : Str) :
    lookupT (e :: t) q = if e.1 = q then some e.2 else lookupT t q := by
  by_cases h : e.1 = q
  · rw [if_pos h]
    unfold lookupT
    rw [List.find?_cons_of_pos _ (by simp [h])]
    rfl
  · rw [if_neg h]
    unfold lookupT
    rw [List.find?_cons_of_neg _ (by simp [h])]

/-- Removal on a cons cell. -/
lemma removeT_cons (e : Str × Str) (t : Tree) (p : Str) :
    removeT (e :: t) p = if e.1 = p then removeT t p else e :: removeT t p := by
  by_cases h : e.1 = p <;> simp [removeT, List.filter_cons, h]

/-- Lookup after removing a path. -/
lemma lookupT_removeT (t : Tree) (p q : Str) :
    lookupT (removeT t p) q = if q = p then none else lookupT t q := by
  induction t with
  | nil => simp [lookupT, removeT]
  | cons e t ih =>
    rw [removeT_cons]
    by_cases hep : e.1 = p
    · rw [if_pos hep, ih]
      by_cases hqp : q = p
      · simp [hqp]
      · have hne : ¬ e.1 = q := fun h => hqp (by rw [← h]; exact hep)
        simp [hqp, hne, lookupT_cons]
    · rw [if_neg hep]
      by_cases heq : e.1 = q
      · have hqp : ¬ q = p := fun hh => hep (by rw [heq, hh])
        rw [lookupT_cons, if_pos heq, if_neg hqp, lookupT_cons, if_pos heq]
      · rw [lookupT_cons, if_neg heq, ih]
        by_cases hqp : q = p
        · simp [hqp]
        · simp [hqp, lookupT_cons, heq]

/-- Lookup after a write. -/
lemma lookupT_setOptT (t : Tree) (p : Str) (c : Option Str) (q : Str) :
    lookupT (setOptT t p c) q = if q = p then c else lookupT t q := by
  cases c with
  | none => simpa [setOptT] using lookupT_removeT t p q
  | some v =>
    by_cases hqp : q = p
    · simp [setOptT, lookupT_cons, hqp]
    · have hpq : ¬ p = q := fun h => hqp h.symm
      simp [setOptT, lookupT_cons, hpq, hqp, lookupT_removeT]

/-- A path with content in the tree is one of its keys. -/
lemma lookupT_isSome_mem (t : Tree) (q : Str) (h : (lookupT t q).isSome = true) :
    q ∈ t.map (·.1) := by
  unfold lookupT at h
  cases hf : t.find? (fun e => e.1 == q) with
  | none => rw [hf] at h; simp at h
  | some e =>
    have hm := List.mem_of_find?_eq_some hf
    have hp := List.find?_some hf
    simp only [beq_iff_eq] at hp
    exact List.mem_map.mpr ⟨e, hm, hp⟩

/-- Characterisation of membership in a structured diff. -/
lemma mem_diffT (base target : Tree) (e : PatchEntry) (he : e ∈ diffT base target) :
    e.oldContent = lookupT base e.path ∧ e.newContent = lookupT target e.path ∧
      e.oldContent ≠ e.newContent := by
  rcases List.mem_filterMap.mp he with ⟨p, _, hf⟩
  by_cases h : lookupT base p = lookupT target p
  · simp [h] at hf
  · simp only [if_neg h] at hf
    cases hf
    exact ⟨rfl, rfl, h⟩

/-- Paths outside the diff have equal content on both sides. -/
lemma not_mem_diffT (base target : Tree) (q : Str)
    (h : ∀ e ∈ diffT base target, e.path ≠ q) :
    lookupT base q = lookupT target q := by
  by_contra hne
  have hq : q ∈ (base.map (·.1) ++ target.map (·.1)).dedup := by
    rw [List.mem_dedup, List.mem_append]
    rcases ho : lookupT base q with _ | v
    · rcases hn : lookupT target q with _ | w
      · exact absurd (ho.trans hn.symm) hne
      · exact Or.inr (lookupT_isSome_mem _ _ (by simp [hn]))
    · exact Or.inl (lookupT_isSome_mem _ _ (by simp [ho]))
  have : (⟨q, lookupT base q, lookupT target q⟩ : PatchEntry) ∈ diffT base target :=
    List.mem_filterMap.mpr ⟨q, hq, by simp [hne]⟩
  exact h _ this rfl

/-- Path lists produced by a key-preserving `filterMap` of a duplicate-free
list are duplicate-free. -/
lemma nodup_filterMap_keys {α : Type} (l : List Str) (f : Str → Option α) (key : α → Str)
    (hf : ∀ p e, f p = some e → key e = p) (hl : l.Nodup) :
    ((l.filterMap f).map key).Nodup := by
  induction l with
  | nil => simp
  | cons p rest ih =>
    rcases List.nodup_cons.mp hl with ⟨hp, hrest⟩
    cases hfp : f p with
    | none => simpa [List.filterMap_cons, hfp] using ih hrest
    | some e =>
      simp only [List.filterMap_cons, hfp, List.map_cons]
      refine List.nodup_cons.mpr ⟨?_, ih hrest⟩
      intro hmem
      rcases List.mem_map.mp hmem with ⟨e1, he1, hke⟩
      rcases List.mem_filterMap.mp he1 with ⟨q, hq, hfq⟩
      have h1 : key e1 = q := hf q e1 hfq
      have h2 : key e = p := hf p e hfp
      rw [h2] at hke
      rw [hke] at h1
      rw [← h1] at hq
      exact hp hq

/-- The diff of two trees mentions each path at most once. -/
lemma diffT_nodup_paths (base target : Tree) :
    ((diffT base target).map (·.path)).Nodup := by
  refine nodup_filterMap_keys _ _ _ ?_ (List.nodup_dedup _)
  intro p e hf
  by_cases h : lookupT base p = lookupT target p
  · simp [h] at hf
  · simp only [if_neg h] at hf
    cases hf
    rfl

/-- Clean-context patch application succeeds on duplicate-free patches and
rewrites exactly the patched paths. -/
lemma applyPatch_ok (wt : Tree) (ps : Patch)
    (hnodup : (ps.map (·.path)).Nodup)
    (hclean : ∀ e ∈ ps, lookupT wt e.path = e.oldContent) :
    ∃ wt', applyPatch wt ps = .ok wt' ∧
      ∀ q, lookupT wt' q =
        match ps.find? (fun e => e.path == q) with
        | some e => e.newContent
        | none => lookupT wt q := by
  induction ps generalizing wt with
  | nil => exact ⟨wt, rfl, fun q => by simp [List.find?]⟩
  | cons e rest ih =>
    rw [List.map_cons] at hnodup
    rcases List.nodup_cons.mp hnodup with ⟨hp, hrest⟩
    have hch := hclean e (by simp)
    have hclean' : ∀ e' ∈ rest, lookupT (setOptT wt e.path e.newContent) e'.path = e'.oldContent := by
      intro e' he'
      rw [lookupT_setOptT]
      have hne : ¬ e'.path = e.path := by
        intro h
        exact hp (by rw [← h]; exact List.mem_map.mpr ⟨e', he', rfl⟩)
      rw [if_neg hne]
      exact hclean e' (List.mem_cons_of_mem _ he')
    rcases ih (setOptT wt e.path e.newContent) hrest hclean' with ⟨wt', happ, hlook⟩
    refine ⟨wt', by simp [applyPatch, hch, happ], ?_⟩
    intro q
    by_cases hq : e.path = q
    · have hnone : rest.find? (fun e' => e'.path == q) = none := by
        rw [List.find?_eq_none]
        intro e' he'
        simp only [beq_iff_eq]
        intro hcontra
        refine hp ?_
        rw [hq, ← hcontra]
        exact List.mem_map.mpr ⟨e', he', rfl⟩
      rw [hlook q, hnone, List.find?_cons_of_pos _ (by simp [hq])]
      show lookupT (setOptT wt e.path e.newContent) q = e.newContent
      rw [lookupT_setOptT, if_pos hq.symm]
    · rw [hlook q, List.find?_cons_of_neg _ (by simp [hq])]
      cases hfr : rest.find? (fun e' => e'.path == q) with
      | some e' => rfl
      | none =>
        show lookupT (setOptT wt e.path e.newContent) q = lookupT wt q
        rw [lookupT_setOptT, if_neg (fun h => hq h.symm)]

/-- Applying the diff of two trees onto the base yields the target. -/
lemma applyPatch_diffT (base target : Tree) :
    ∃ wt', applyPatch base (diffT base target) = .ok wt' ∧
      ∀ q, lookupT wt' q = lookupT target q := by
  have hclean : ∀ e ∈ diffT base target, lookupT base e.path = e.oldContent :=
    fun e he => ((mem_diffT base target e he).1).symm
  rcases applyPatch_ok base (diffT base target) (diffT_nodup_paths base target) hclean with
    ⟨wt', happ, hlook⟩
  refine ⟨wt', happ, ?_⟩
  intro q
  rw [hlook q]
  cases hf : (diffT base target).find? (fun e => e.path == q) with
  | some e =>
    have hm := List.mem_of_find?_eq_some hf
    have hp : e.path = q := by simpa using List.find?_some hf
    rw [← hp]
    exact (mem_diffT base target e hm).2.1
  | none =>
    refine not_mem_diffT base target q ?_
    intro e he hcontra
    have := List.find?_eq_none.mp hf e he
    simp [hcontra] at this

/-! ### Claim C10: totality of `readSnapshotStack` -/

/-- C10: reading the persisted snapshot index is total: every failure state of
the index file (missing, unreadable, invalid JSON, JSON that is not an array)
reads as the empty stack instead of failing; in particular a summary taken
over a corrupted index simply reports no snapshots. -/
theorem c10_read_stack_total :
    (∀ f : IndexFile, (∀ labels, f ≠ .jsonArray labels) → readSnapshotStack f = []) ∧
    readSnapshotStack .missing = [] ∧
    readSnapshotStack .unreadable = [] ∧
    readSnapshotStack .invalidJson = [] ∧
    readSnapshotStack .jsonNonArray = [] ∧
    (∀ st : GitState, st.indexFile = .invalidJson →
      (getSnapshotSummary st).1 = { hasSnapshots := false, snapshots := [] }) := by
  refine ⟨?_, rfl, rfl, rfl, rfl, ?_⟩
  · intro f hf
    cases f with
    | missing => rfl
    | unreadable => rfl
    | invalidJson => rfl
    | jsonNonArray => rfl
    | jsonArray labels => exact absurd rfl (hf labels)
  · intro st h
    simp [getSnapshotSummary, filterSnapshotStack, h, readSnapshotStack]

/-- Witness for C10 at a concrete corrupted index. -/
theorem c10_read_stack_total_witness :
    readSnapshotStack .jsonNonArray = [] :=
  c10_read_stack_total.1 .jsonNonArray (fun _ h => IndexFile.noConfusion h)

/-! ### Claim C9: `dropSnapshot` -/

/-- A concrete state whose index holds a label with no matching stash entry. -/
def c9State : GitState :=
  { isRepo := true, head := [], worktree := [], stash := [],
    indexFile := .jsonArray [toStr "codex-snapshot:1:agent-run"], now := 2 }

/-- C9 counterexample: with the label present in the stack but no matching
stash entry, `dropSnapshot` reports plain success with no failure signal
(`reason` is `none`), contradicting the claim that the result signals the
failed underlying stash drop. -/
theorem c9_drop_counterexample :
    dropSnapshot (toStr "codex-snapshot:1:agent-run") c9State =
      ({ dropped := true, reason := none }, writeSnapshotStack c9State []) := by
  decide

/-- Case analysis of `dropSnapshot`. -/
lemma dropSnapshot_cases (snapshotLabel : Str) (st : GitState) :
    (snapshotLabel ∉ readSnapshotStack st.indexFile →
      dropSnapshot snapshotLabel st =
        ({ dropped := false, reason := some (toStr "not_found") }, st)) ∧
    (∀ target, snapshotLabel ∈ readSnapshotStack st.indexFile →
      (listStashEntries st).find? (fun e => labelMatches e.2.subject snapshotLabel) = some target →
      dropSnapshot snapshotLabel st =
        ({ dropped := true, reason := none },
          { writeSnapshotStack st (removeLastOcc (readSnapshotStack st.indexFile) snapshotLabel) with
              stash := st.stash.eraseIdx target.1 })) ∧
    (snapshotLabel ∈ readSnapshotStack st.indexFile →
      (listStashEntries st).find? (fun e => labelMatches e.2.subject snapshotLabel) = none →
      dropSnapshot snapshotLabel st =
        ({ dropped := true, reason := none },
          writeSnapshotStack st (removeLastOcc (readSnapshotStack st.indexFile) snapshotLabel))) := by
  refine ⟨?_, ?_, ?_⟩
  · intro hmem
    simp [dropSnapshot, hmem]
  · rintro ⟨i, e⟩ hmem hfind
    have hmemt : (i, e) ∈ listStashEntries st := List.mem_of_find?_eq_some hfind
    have hlt : i < st.stash.length := (List.mem_enum hmemt).1
    simp only [dropSnapshot, if_pos hmem]
    have hentries : listStashEntries
        (writeSnapshotStack st (removeLastOcc (readSnapshotStack st.indexFile) snapshotLabel))
        = listStashEntries st := rfl
    rw [hentries, hfind]
    simp [stashDrop, writeSnapshotStack, hlt]
  · intro hmem hfind
    simp only [dropSnapshot, if_pos hmem]
    have hentries : listStashEntries
        (writeSnapshotStack st (removeLastOcc (readSnapshotStack st.indexFile) snapshotLabel))
        = listStashEntries st := rfl
    rw [hentries, hfind]

/-- C9 amended: `dropSnapshot` removes the last occurrence of the label from
the persisted stack; a label absent from the stack reports `not_found`
without changes; when a matching stash entry exists it is dropped from the
stash and the call reports success; when no matching stash entry exists the
call still reports plain success with no failure signal, the stack removal
standing. -/
theorem c9_drop_snapshot (snapshotLabel : Str) (st : GitState) :
    (snapshotLabel ∉ readSnapshotStack st.indexFile →
      dropSnapshot snapshotLabel st =
        ({ dropped := false, reason := some (toStr "not_found") }, st)) ∧
    (∀ target, snapshotLabel ∈ readSnapshotStack st.indexFile →
      (listStashEntries st).find? (fun e => labelMatches e.2.subject snapshotLabel) = some target →
      dropSnapshot snapshotLabel st =
        ({ dropped := true, reason := none },
          { writeSnapshotStack st (removeLastOcc (readSnapshotStack st.indexFile) snapshotLabel) with
              stash := st.stash.eraseIdx target.1 })) ∧
    (snapshotLabel ∈ readSnapshotStack st.indexFile →
      (listStashEntries st).find? (fun e => labelMatches e.2.subject snapshotLabel) = none →
      dropSnapshot snapshotLabel st =
        ({ dropped := true, reason := none },
          writeSnapshotStack st (removeLastOcc (readSnapshotStack st.indexFile) snapshotLabel))) :=
  dropSnapshot_cases snapshotLabel st

/-- Witness for the amended C9: a label absent from the stack. -/
theorem c9_drop_snapshot_witness :
    dropSnapshot (toStr "missing") c9State =
      ({ dropped := false, reason := some (toStr "not_found") }, c9State) :=
  (c9_drop_snapshot (toStr "missing") c9State).1 (by decide)

/-! ### Claim C6: `createSnapshot` -/

/-- Post-state relation of a successful `createSnapshot`: the patch of all
current changes is pushed under the fresh label, the label is appended to
the persisted stack, and the visible file contents are unchanged by the
capture. -/
def CreateSnapshotPost (purpose : Str) (st st' : GitState) : Prop :=
  st'.stash =
    ⟨stashSubject (mkSnapshotLabel st.now purpose), diffT st.head st.worktree⟩ :: st.stash ∧
  st'.indexFile =
    .jsonArray (readSnapshotStack st.indexFile ++ [mkSnapshotLabel st.now purpose]) ∧
  (∀ q, lookupT st'.worktree q = lookupT st.worktree q) ∧
  st'.head = st.head ∧ st'.isRepo = st.isRepo ∧ st'.now = st.now + 1

/-- Case analysis of `createSnapshot`. -/
lemma createSnapshot_cases (purpose : Str) (st : GitState) :
    (st.isRepo = false → createSnapshot purpose st = (none, st)) ∧
    (st.isRepo = true → diffT st.head st.worktree = [] →
      createSnapshot purpose st = (none, st)) ∧
    (st.isRepo = true → diffT st.head st.worktree ≠ [] →
      ∃ st', createSnapshot purpose st = (some (mkSnapshotLabel st.now purpose), st') ∧
        CreateSnapshotPost purpose st st') := by
  refine ⟨?_, ?_, ?_⟩
  · intro h
    simp [createSnapshot, h]
  · intro h hdiff
    simp [createSnapshot, h, workspaceHasChanges, hdiff]
  · intro h hdiff
    rcases applyPatch_diffT st.head st.worktree with ⟨wt', happ, hlook⟩
    have hch : workspaceHasChanges st = true := by
      unfold workspaceHasChanges
      simp [hdiff]
    simp only [createSnapshot, h, hch, Bool.not_true, Bool.false_eq_true, if_false]
    rw [happ]
    exact ⟨_, rfl, rfl, rfl, hlook, rfl, h.symm, rfl⟩

/-- C6: `createSnapshot` returns `null` when the directory is not a
repository or the workspace has no uncommitted changes; otherwise it returns
the label `codex-snapshot:<epoch-ms>:<purpose>`, stashes all changes under
that label, leaves the visible file contents unchanged (the immediate
re-apply of the top of stash), and appends the label to the persisted
stack. -/
theorem c6_create_snapshot (purpose : Str) (st : GitState) :
    (st.isRepo = false → createSnapshot purpose st = (none, st)) ∧
    (st.isRepo = true → diffT st.head st.worktree = [] →
      createSnapshot purpose st = (none, st)) ∧
    (st.isRepo = true → diffT st.head st.worktree ≠ [] →
      ∃ st', createSnapshot purpose st = (some (mkSnapshotLabel st.now purpose), st') ∧
        CreateSnapshotPost purpose st st') :=
  createSnapshot_cases purpose st

/-- A concrete dirty repository state. -/
def c6State : GitState :=
  { isRepo := true, head := [(toStr "a.txt", toStr "old")],
    worktree := [(toStr "a.txt", toStr "new")], stash := [],
    indexFile := .jsonArray [], now := 5 }

/-- Witness for C6 at a concrete dirty state. -/
theorem c6_create_snapshot_witness :
    ∃ st', createSnapshot (toStr "pre") c6State =
        (some (mkSnapshotLabel c6State.now (toStr "pre")), st') ∧
      CreateSnapshotPost (toStr "pre") c6State st' :=
  (c6_create_snapshot (toStr "pre") c6State).2.2 rfl (by decide)

/-! ### Claim C7: self-healing of orphaned labels -/

/-- The pruned stack: persisted labels that still have a matching stash
entry. -/
def prunedOf (st : GitState) : List Str :=
  (readSnapshotStack st.indexFile).filter (hasMatch (listStashEntries st))

/-- Computation rule for `getSnapshotSummary`. -/
lemma getSnapshotSummary_eq (st : GitState) :
    getSnapshotSummary st =
      ({ hasSnapshots := decide (0 < (prunedOf st).length), snapshots := prunedOf st },
        if (prunedOf st).length ≠ (readSnapshotStack st.indexFile).length
          then writeSnapshotStack st (prunedOf st) else st) := rfl

/-- Computation rule for `applyLatestSnapshot` in a repository. -/
lemma applyLatestSnapshot_eq (st : GitState) (h : st.isRepo = true) :
    applyLatestSnapshot st =
      applyLoop (prunedOf st) (listStashEntries st)
        (if (prunedOf st).length ≠ (readSnapshotStack st.indexFile).length
          then writeSnapshotStack st (prunedOf st) else st) := by
  unfold applyLatestSnapshot
  rw [h]
  rfl

/-- Exiting the `applyLatestSnapshot` loop with an empty stack. -/
lemma applyLoop_nil (entries : List (Nat × StashEntry)) (st : GitState) :
    applyLoop [] entries st =
      (.ok { applied := false, remaining := none,
             reason := some (toStr "No snapshots available") },
        writeSnapshotStack st []) := by
  rw [applyLoop]
  rfl

/-- One `applyLatestSnapshot` loop iteration whose popped label has a
matching stash entry. -/
lemma applyLoop_found (ys : List Str) (L : Str) (entries : List (Nat × StashEntry))
    (st : GitState) (target : Nat × StashEntry)
    (hfind : entries.find? (fun e => labelMatches e.2.subject L) = some target) :
    applyLoop (ys ++ [L]) entries st =
      match getPatchForRef st target.1 with
      | .error e => (.error e, st)
      | .ok targetPatch =>
        match stashDrop st target.1 with
        | .error e => (.error e, writeSnapshotStack st (ys ++ [L]))
        | .ok st2 =>
          match checkoutPaths (writeSnapshotStack st2 ys) (extractPathsFromPatch targetPatch) with
          | .error e => (.error e, writeSnapshotStack st2 ys)
          | .ok st4 =>
            if ys.isEmpty then
              (.ok { applied := true, remaining := some 0, reason := none }, st4)
            else restoreNext ys st4 := by
  rw [applyLoop, dif_neg (by simp)]
  simp only [List.getLast_concat, List.dropLast_concat]
  rw [hfind]

/-- The re-materialisation phase never reports "no snapshots available". -/
lemma restoreNext_ne_noSnap (stack : List Str) (st : GitState) :
    (restoreNext stack st).1 ≠
      .ok { applied := false, remaining := none,
            reason := some (toStr "No snapshots available") } := by
  unfold restoreNext
  repeat' split
  all_goals try simp
  all_goals repeat' split
  all_goals try simp
  all_goals repeat' split
  all_goals simp

/-- C7: `getSnapshotSummary` prunes orphaned labels (labels whose stash entry
was externally removed), persisting the filtered stack, and reports the
pruned stack; `applyLatestSnapshot` reports the non-applied result
"No snapshots available" exactly when nothing with a live stash entry
remains, and otherwise proceeds with the top surviving label instead of
failing. -/
theorem c7_self_healing (st : GitState) :
    (∃ st', getSnapshotSummary st =
        ({ hasSnapshots := decide (0 < (prunedOf st).length), snapshots := prunedOf st }, st') ∧
      readSnapshotStack st'.indexFile = prunedOf st ∧
      st'.stash = st.stash ∧ st'.worktree = st.worktree) ∧
    (st.isRepo = true → prunedOf st = [] →
      applyLatestSnapshot st =
        (.ok { applied := false, remaining := none,
               reason := some (toStr "No snapshots available") },
          writeSnapshotStack st [])) ∧
    (st.isRepo = true → prunedOf st ≠ [] →
      (applyLatestSnapshot st).1 ≠
        .ok { applied := false, remaining := none,
              reason := some (toStr "No snapshots available") }) := by
  refine ⟨?_, ?_, ?_⟩
  · rw [getSnapshotSummary_eq]
    refine ⟨_, rfl, ?_, ?_, ?_⟩
    · by_cases hlen : (prunedOf st).length ≠ (readSnapshotStack st.indexFile).length
      · rw [if_pos hlen]
        rfl
      · rw [if_neg hlen]
        rw [not_not] at hlen
        exact ((List.filter_sublist _).eq_of_length hlen).symm
    · by_cases hlen : (prunedOf st).length ≠ (readSnapshotStack st.indexFile).length
      · rw [if_pos hlen]
        rfl
      · rw [if_neg hlen]
    · by_cases hlen : (prunedOf st).length ≠ (readSnapshotStack st.indexFile).length
      · rw [if_pos hlen]
        rfl
      · rw [if_neg hlen]
  · intro hrepo hpruned
    rw [applyLatestSnapshot_eq st hrepo, hpruned, applyLoop_nil]
    by_cases hlen : ([] : List Str).length ≠ (readSnapshotStack st.indexFile).length
    · rw [if_pos hlen]
      rfl
    · rw [if_neg hlen]
  · intro hrepo hpruned
    rw [applyLatestSnapshot_eq st hrepo]
    have hys := List.dropLast_append_getLast hpruned
    have hLmem : (prunedOf st).getLast hpruned ∈ prunedOf st := List.getLast_mem hpruned
    have hmatch : hasMatch (listStashEntries st) ((prunedOf st).getLast hpruned) = true :=
      List.of_mem_filter hLmem
    have hfind : ((listStashEntries st).find?
        (fun e => labelMatches e.2.subject ((prunedOf st).getLast hpruned))).isSome = true := by
      rw [List.find?_isSome]
      rcases List.any_eq_true.mp hmatch with ⟨e, he, hpe⟩
      exact ⟨e, he, hpe⟩
    rcases Option.isSome_iff_exists.mp hfind with ⟨target, htarget⟩
    rw [← hys, applyLoop_found _ _ _ _ target htarget]
    repeat' split
    all_goals simp
    exact restoreNext_ne_noSnap _ _

/-- A concrete state whose only persisted label is orphaned. -/
def c7State : GitState :=
  { isRepo := true, head := [], worktree := [], stash := [],
    indexFile := .jsonArray [toStr "codex-snapshot:3:theme-update"], now := 4 }

/-- Witness for C7: the orphaned label is pruned and the restore reports a
non-applied result instead of crashing. -/
theorem c7_self_healing_witness :
    applyLatestSnapshot c7State =
      (.ok { applied := false, remaining := none,
             reason := some (toStr "No snapshots available") },
        writeSnapshotStack c7State []) :=
  (c7_self_healing c7State).2.1 rfl (by decide)

/-! ### Event normaliser and run orchestrator

The streaming routes consume SDK thread events, normalise each one to a
`{type, text, payload}` message, and append exactly one terminal `done`
payload.  The normalized message is modelled as one constructor per row of
the mapping table, carrying the fields the handler copies into the JSON
record. -/

/-- Phase of an item event. -/
inductive Phase
  | started | updated | completed
deriving DecidableEq, Repr

/-- Model of the SDK `ThreadItem` union (the fields the handlers read). -/
inductive ThreadItem
  | todoList (id : Str) (items : List (Str × Bool))
  | commandExecution (id command status : Str) (exitCode : Option Int) (aggregatedOutput : Str)
  | fileChange (id status : Str) (changes : List (Str × Str))
  | agentMessage (id text : Str)
  | reasoning (id text : Str)
  | errorItem (id message : Str)
  | mcpToolCall (id server tool status : Str)
  | webSearch (id query : Str)
  | other (id itemType : Str)
deriving DecidableEq, Repr

/-- Model of the SDK `ThreadEvent` union. -/
inductive ThreadEvent
  | threadStarted (threadId : Str)
  | turnStarted
  | turnCompleted (inputTokens cachedInputTokens outputTokens : Nat)
  | turnFailed (errorMessage : Str)
  | itemStarted (item : ThreadItem)
  | itemUpdated (item : ThreadItem)
  | itemCompleted (item : ThreadItem)
  | errorEvent (message : Str)
deriving DecidableEq, Repr

/-- One normalized client-facing message (the `{type, text, payload}` record
of an SSE `message` event), one constructor per shape of the mapping
table. -/
inductive NormEvent
  | threadStarted (threadId : Str)
  | turnStarted
  | turnCompleted (inputTokens cachedInputTokens outputTokens : Nat)
  | turnFailed (errorMessage : Str)
  | planUpdated (phase : Phase) (items : List (Str × Bool))
  | command (phase : Phase) (id command status : Str) (exitCode : Option Int) (output : Str)
  | fileChange (id status : Str) (changes : List (Str × Str))
  | agentMessage (id text : Str)
  | reasoning (id text : Str)
  | errorItem (id message : Str)
  | tool (phase : Phase) (id server tool status : Str)
  | search (phase : Phase) (id query : Str)
  | itemFallback (phase : Phase) (id itemType : Str)
  | streamError (message : Str)
  | agentFinal (text : Str)
  | themeCompletedNoop (hasSnapshots : Bool) (primary accent : Str)
  | themeCompletedDone (snapshotCreated hasSnapshots : Bool) (primary accent : Str)
deriving DecidableEq, Repr

/-- Payload of the terminal `done` SSE event; fields a variant does not set
are `none`. -/
structure DoneData where
  ok : Bool
  hasSnapshots : Option Bool := none
  error : Option Str := none
  reason : Option Str := none
  snapshotCreated : Option Bool := none
  preSnapshotRetained : Option Bool := none
  finalResponse : Option Str := none
deriving DecidableEq, Repr

/-- One wire event of the client-visible SSE stream. -/
inductive Wire
  | message (e : NormEvent)
  | done (d : DoneData)
deriving DecidableEq, Repr

/-- Model of `handleItemEvent`: one thread item to its normalized message
(the mapping table of the event normaliser). -/
def handleItemEvent (phase : Phase) : ThreadItem → NormEvent
  | .todoList _ items => .planUpdated phase items
  | .commandExecution id command status exitCode output =>
    .command phase id command status exitCode output
  | .fileChange id status changes => .fileChange id status changes
  | .agentMessage id text => .agentMessage id text
  | .reasoning id text => .reasoning id text
  | .errorItem id message => .errorItem id message
  | .mcpToolCall id server tool status => .tool phase id server tool status
  | .webSearch id query => .search phase id query
  | .other id itemType => .itemFallback phase id itemType

/-- Model of `forwardEvent`: one source thread event to its normalized
message. -/
def forwardEvent : ThreadEvent → NormEvent
  | .threadStarted threadId => .threadStarted threadId
  | .turnStarted => .turnStarted
  | .turnCompleted a b c => .turnCompleted a b c
  | .turnFailed msg => .turnFailed msg
  | .itemStarted item => handleItemEvent .started item
  | .itemUpdated item => handleItemEvent .updated item
  | .itemCompleted item => handleItemEvent .completed item
  | .errorEvent message => .streamError message

/-- The run loop marks `hasFileChanges` when an item event carries a
`file_change` item. -/
def isFileChangeEvent : ThreadEvent → Bool
  | .itemStarted (.fileChange ..) => true
  | .itemUpdated (.fileChange ..) => true
  | .itemCompleted (.fileChange ..) => true
  | _ => false

/-- A completed agent message updates the tracked final response
(images variant of the agent-run route). -/
def updateFinalResponse (fr : Option Str) : ThreadEvent → Option Str
  | .itemCompleted (.agentMessage _ text) => some text
  | _ => fr

/-- Result of the event-forwarding loop of a streaming route. -/
structure LoopOut where
  wire : List Wire
  hasFileChanges : Bool
  finalResponse : Option Str
  closed : Bool
deriving DecidableEq, Repr

/-- The `for await` loop shared by the streaming routes: forward each event
unless the emitter was closed by the abort handler; `abortAt` is the number
of events forwarded before the client aborts (`none` for no abort). -/
def runLoopAux (abortAt : Option Nat) : List ThreadEvent → Nat → Bool → Option Str → LoopOut
  | [], _, hfc, fr => { wire := [], hasFileChanges := hfc, finalResponse := fr, closed := false }
  | e :: rest, i, hfc, fr =>
    if abortAt = some i then
      { wire := [], hasFileChanges := hfc, finalResponse := fr, closed := true }
    else
      let out := runLoopAux abortAt rest (i + 1)
        (hfc || isFileChangeEvent e) (updateFinalResponse fr e)
      { out with wire := .message (forwardEvent e) :: out.wire }

/-- The event-forwarding loop from the start of a run. -/
def runLoop (events : List ThreadEvent) (abortAt : Option Nat) : LoopOut :=
  runLoopAux abortAt events 0 false none

/-- Result of a streaming route invocation: the emitted wire events and the
final git state. -/
structure RunResult where
  wire : List Wire
  st : GitState
deriving DecidableEq, Repr

/-- Model of the agent-run route `POST` (prompt-only variant): pre-run
snapshot, event forwarding with abort handling, post-run snapshot decision
and terminal `done`.  `events` are the source events yielded before the
stream ends, `streamErr` an error thrown by the stream after them, and
`agentWrites` the run's effect on the working tree, applied before the
post-run decision.  An abort closes the emitter, skipping the post-run
block entirely. -/
def runCodexPOST (events : List ThreadEvent) (streamErr : Option Str) (abortAt : Option Nat)
    (agentWrites : Tree → Tree) (st0 : GitState) : RunResult :=
  let pre := createSnapshot (toStr "agent-run") st0
  let lp := runLoop events abortAt
  let st2 : GitState := { pre.2 with worktree := agentWrites pre.2.worktree }
  if lp.closed then { wire := lp.wire, st := st2 }
  else
    let afterDrop : Option Str × GitState :=
      if !lp.hasFileChanges then
        match pre.1 with
        | some label => (none, (dropSnapshot label st2).2)
        | none => (none, st2)
      else (pre.1, st2)
    let afterCreate : Option Str × GitState :=
      if lp.hasFileChanges && afterDrop.1.isNone then
        createSnapshot (toStr "agent-run") afterDrop.2
      else afterDrop
    let summary := getSnapshotSummary afterCreate.2
    match streamErr with
    | none =>
      { wire := lp.wire ++ [.done { ok := true, hasSnapshots := some summary.1.hasSnapshots }],
        st := summary.2 }
    | some msg =>
      { wire := lp.wire ++ [.message (.streamError msg),
          .done { ok := false, error := some msg, hasSnapshots := some summary.1.hasSnapshots }],
        st := summary.2 }

/-- Model of the agent-run route `POST` (images variant): pre-run snapshot
`agent-run-pre`, event forwarding with final-response tracking, a post-run
snapshot `agent-run-post` attempted whenever a file change was observed, an
`agent.final` message, and a richer `done` payload. -/
def runCodexImagesPOST (events : List ThreadEvent) (streamErr : Option Str) (abortAt : Option Nat)
    (agentWrites : Tree → Tree) (st0 : GitState) : RunResult :=
  let pre := createSnapshot (toStr "agent-run-pre") st0
  let lp := runLoop events abortAt
  let st2 : GitState := { pre.2 with worktree := agentWrites pre.2.worktree }
  if lp.closed then { wire := lp.wire, st := st2 }
  else
    let st3 :=
      if !lp.hasFileChanges then
        match pre.1 with
        | some label => (dropSnapshot label st2).2
        | none => st2
      else st2
    let post : Option Str × GitState :=
      if lp.hasFileChanges then createSnapshot (toStr "agent-run-post") st3
      else (none, st3)
    let summary := getSnapshotSummary post.2
    let errMsgs : List Wire :=
      match streamErr with
      | none => []
      | some msg => [.message (.streamError msg)]
    let finalMsgs : List Wire :=
      match lp.finalResponse with
      | some text => [.message (.agentFinal text)]
      | none => []
    let doneData : DoneData :=
      match streamErr with
      | none =>
        { ok := true, hasSnapshots := some summary.1.hasSnapshots,
          snapshotCreated := some post.1.isSome,
          preSnapshotRetained := some (pre.1.isSome && lp.hasFileChanges),
          finalResponse := lp.finalResponse }
      | some msg =>
        { ok := false, error := some msg, hasSnapshots := some summary.1.hasSnapshots,
          snapshotCreated := some post.1.isSome,
          preSnapshotRetained := some (pre.1.isSome && lp.hasFileChanges),
          finalResponse := lp.finalResponse }
    { wire := lp.wire ++ errMsgs ++ finalMsgs ++ [.done doneData], st := summary.2 }

/-- Number of terminal `done` signals in a wire stream. -/
def countDone (l : List Wire) : Nat :=
  (l.filter fun w => match w with | .done _ => true | _ => false).length

/-! ### Theme route (streaming variant) -/

/-- Theme payload after validation. -/
structure ThemePayload where
  primary : Str
  accent : Str
deriving DecidableEq, Repr

/-- Hex digit of the colour regex character class. -/
def isHexDigit (c : Char) : Bool :=
  ('0' ≤ c && c ≤ '9') || ('a' ≤ c && c ≤ 'f') || ('A' ≤ c && c ≤ 'F')

/-- Model of the anchored colour check `#` followed by three or six hex
digits. -/
def isHexColor (s : Str) : Bool :=
  match s with
  | '#' :: rest => (rest.length == 3 || rest.length == 6) && rest.all isHexDigit
  | _ => false

/-- Model of `validateTheme`: both colours must match the hex pattern; the
accepted values are lower-cased. -/
def validateTheme (primary accent : Str) : Option ThemePayload :=
  if isHexColor primary && isHexColor accent then
    some { primary := primary.map Char.toLower, accent := accent.map Char.toLower }
  else none

/-- Match the token pattern (token, optional whitespace, colon, optional
whitespace, a non-empty value free of semicolons, semicolon) at the start of
`s`; returns the leading capture group (token through the whitespace after
the colon), the value, and the rest after the semicolon.  The greedy
whitespace run backtracks so the value keeps at least one character. -/
def matchTokenAt (token s : Str) : Option (Str × Str × Str) :=
  if token.isPrefixOf s then
    let s1 := s.drop token.length
    let ws1 := s1.takeWhile isWsp
    let s2 := s1.drop ws1.length
    match s2 with
    | ':' :: s3 =>
      match s3.findIdx? (fun c => c = ';') with
      | none => none
      | some j =>
        if j = 0 then none
        else
          let consumed := s3.take j
          let lead := (consumed.takeWhile isWsp).length
          let ws2 := consumed.take (min lead (j - 1))
          let value := consumed.drop (min lead (j - 1))
          some (token ++ ws1 ++ ':' :: ws2, value, s3.drop (j + 1))
    | _ => none
  else none

/-- First match of the token pattern in `s` (the regex engine scanning
forward one position at a time): the prefix before the match and the three
parts of `matchTokenAt`. -/
def matchToken (token : Str) : Str → Option (Str × Str × Str × Str)
  | [] =>
    match matchTokenAt token [] with
    | some (g1, v, post) => some ([], g1, v, post)
    | none => none
  | c :: rest =>
    match matchTokenAt token (c :: rest) with
    | some (g1, v, post) => some ([], g1, v, post)
    | none =>
      match matchToken token rest with
      | some (pre, g1, v, post) => some (c :: pre, g1, v, post)
      | none => none

/-- Model of `updateToken`: replace the first matched value of the token
with the new value; a missing token throws. -/
def updateToken (source token value : Str) : Except Str Str :=
  match matchToken token source with
  | none => .error (toStr "Token not found in theme file")
  | some (pre, g1, _, post) => .ok (pre ++ g1 ++ value ++ ';' :: post)

/-- The two deterministic substitutions of the theme route. -/
def themeApply (content : Str) (p : ThemePayload) : Except Str Str :=
  match updateToken content (toStr "--accent-primary") p.primary with
  | .error e => .error e
  | .ok c1 => updateToken c1 (toStr "--accent-secondary") p.accent

/-- The theme file path. -/
def THEME_FILE : Str := toStr "styles/theme.css"

/-- Result of the theme streaming route: a 4xx response (for validation or
substitution failures), or the streamed wire events, the final git state and
whether the external agent was invoked. -/
structure ThemeResult where
  response400 : Option Str
  wire : List Wire
  st : GitState
  agentInvoked : Bool
deriving DecidableEq, Repr

/-- Model of the theme streaming route `POST`: validate, resolve the theme
file through the Workspace Path Guard, read it, compute the deterministic
substitution.  When the substitution is a no-op the route streams one
`theme.completed` message and a terminal `done` with reason `no_changes`,
invoking no agent and creating no snapshot.  Otherwise it runs the agent
(forwarding events), snapshots afterwards, and reports completion; its abort
handler emits a terminal `done` before closing. -/
def themeStreamPOST (primaryRaw accentRaw : Str) (events : List ThreadEvent)
    (streamErr : Option Str) (abortAt : Option Nat) (agentWrites : Tree → Tree)
    (st0 : GitState) : ThemeResult :=
  match validateTheme primaryRaw accentRaw with
  | none =>
    { response400 := some (toStr "invalid theme payload"), wire := [], st := st0,
      agentInvoked := false }
  | some payload =>
    match resolveWorkspacePath [THEME_FILE] with
    | none =>
      { response400 := some (toStr "path outside the allowed write roots"), wire := [],
        st := st0, agentInvoked := false }
    | some _ =>
      match lookupT st0.worktree THEME_FILE with
      | none =>
        { response400 := some (toStr "theme file missing"), wire := [], st := st0,
          agentInvoked := false }
      | some content =>
        match themeApply content payload with
        | .error e => { response400 := some e, wire := [], st := st0, agentInvoked := false }
        | .ok patched =>
          if content == patched then
            let summary := getSnapshotSummary st0
            { response400 := none,
              wire := [.message (.themeCompletedNoop summary.1.hasSnapshots
                  payload.primary payload.accent),
                .done { ok := true, hasSnapshots := some summary.1.hasSnapshots,
                        reason := some (toStr "no_changes") }],
              st := summary.2, agentInvoked := false }
          else
            let lp := runLoop events abortAt
            let st2 : GitState := { st0 with worktree := agentWrites st0.worktree }
            if lp.closed then
              let snap := createSnapshot (toStr "theme-update") st2
              let summary := getSnapshotSummary snap.2
              let abortedDone : DoneData :=
                { ok := false, error := some (toStr "Theme update aborted"),
                  reason := some (toStr "aborted") }
              { response400 := none,
                wire := lp.wire ++ [.done abortedDone],
                st := summary.2, agentInvoked := true }
            else
              match streamErr with
              | none =>
                let snap := createSnapshot (toStr "theme-update") st2
                let summary := getSnapshotSummary snap.2
                { response400 := none,
                  wire := lp.wire ++
                    [.message (.themeCompletedDone snap.1.isSome summary.1.hasSnapshots
                        payload.primary payload.accent),
                     .done { ok := true, hasSnapshots := some summary.1.hasSnapshots,
                             snapshotCreated := some snap.1.isSome }],
                  st := summary.2, agentInvoked := true }
              | some msg =>
                { response400 := none,
                  wire := lp.wire ++ [.message (.streamError msg),
                    .done { ok := false, error := some msg }],
                  st := st2, agentInvoked := true }

/-! ### Lemmas about the run loop and route state -/

/-- Without an abort signal the loop forwards every event in order and the
emitter stays open. -/
lemma runLoopAux_none (events : List ThreadEvent) :
    ∀ (i : Nat) (hfc : Bool) (fr : Option Str),
      runLoopAux none events i hfc fr =
        { wire := events.map (fun e => Wire.message (forwardEvent e)),
          hasFileChanges := hfc || events.any isFileChangeEvent,
          finalResponse := events.foldl updateFinalResponse fr,
          closed := false } := by
  induction events with
  | nil => intro i hfc fr; simp [runLoopAux]
  | cons e rest ih =>
    intro i hfc fr
    simp [runLoopAux, ih, Bool.or_assoc]

/-- The loop from the start of a run, without abort. -/
lemma runLoop_none (events : List ThreadEvent) :
    runLoop events none =
      { wire := events.map (fun e => Wire.message (forwardEvent e)),
        hasFileChanges := events.any isFileChangeEvent,
        finalResponse := events.foldl updateFinalResponse none,
        closed := false } := by
  unfold runLoop
  rw [runLoopAux_none]
  simp

/-- An abort after `k` forwarded events closes the emitter with exactly the
first `k` normalized events emitted. -/
lemma runLoopAux_abort :
    ∀ (k : Nat) (events : List ThreadEvent) (i : Nat) (hfc : Bool) (fr : Option Str),
      k < events.length →
      ∃ hfc' fr', runLoopAux (some (i + k)) events i hfc fr =
        { wire := (events.take k).map (fun e => Wire.message (forwardEvent e)),
          hasFileChanges := hfc', finalResponse := fr', closed := true } := by
  intro k
  induction k with
  | zero =>
    intro events i hfc fr hlen
    cases events with
    | nil => simp at hlen
    | cons e rest => exact ⟨hfc, fr, by simp [runLoopAux]⟩
  | succ k ih =>
    intro events i hfc fr hlen
    cases events with
    | nil => simp at hlen
    | cons e rest =>
      have hne : ¬ ((some (i + (k + 1)) : Option Nat) = some i) := by
        simp
      have hrw : i + (k + 1) = (i + 1) + k := by omega
      rcases ih rest (i + 1) (hfc || isFileChangeEvent e) (updateFinalResponse fr e)
        (by simpa using hlen) with ⟨h1, f1, hrec⟩
      refine ⟨h1, f1, ?_⟩
      simp only [runLoopAux, if_neg hne]
      rw [hrw, hrec]
      simp

/-- The loop from the start of a run, aborted after `k` events. -/
lemma runLoop_abort (events : List ThreadEvent) (k : Nat) (hk : k < events.length) :
    ∃ hfc' fr', runLoop events (some k) =
      { wire := (events.take k).map (fun e => Wire.message (forwardEvent e)),
        hasFileChanges := hfc', finalResponse := fr', closed := true } := by
  have h := runLoopAux_abort k events 0 false none hk
  simpa using h

/-- Done-signal count distributes over append. -/
lemma countDone_append (a b : List Wire) :
    countDone (a ++ b) = countDone a + countDone b := by
  simp [countDone, List.filter_append]

/-- Normalized messages contribute no done signal. -/
lemma countDone_messages (events : List ThreadEvent) :
    countDone (events.map (fun e => Wire.message (forwardEvent e))) = 0 := by
  induction events with
  | nil => rfl
  | cons e rest ih => simpa [countDone, List.filter_cons] using ih

/-- Either `createSnapshot` is a no-op returning `none`, or it returns the
fresh label with the post-state relation. -/
lemma createSnapshot_result (purpose : Str) (st : GitState) :
    createSnapshot purpose st = (none, st) ∨
    ∃ st', createSnapshot purpose st = (some (mkSnapshotLabel st.now purpose), st') ∧
      CreateSnapshotPost purpose st st' := by
  by_cases h1 : st.isRepo = true
  · by_cases h2 : diffT st.head st.worktree = []
    · exact Or.inl ((createSnapshot_cases purpose st).2.1 h1 h2)
    · exact Or.inr ((createSnapshot_cases purpose st).2.2 h1 h2)
  · exact Or.inl ((createSnapshot_cases purpose st).1 (by simpa using h1))

/-- State effect of `getSnapshotSummary`: only the index file changes, to
the pruned stack. -/
lemma getSnapshotSummary_state (st : GitState) :
    (getSnapshotSummary st).2.stash = st.stash ∧
    (getSnapshotSummary st).2.worktree = st.worktree ∧
    readSnapshotStack (getSnapshotSummary st).2.indexFile = prunedOf st ∧
    (getSnapshotSummary st).2.head = st.head ∧
    (getSnapshotSummary st).2.isRepo = st.isRepo := by
  rw [getSnapshotSummary_eq]
  by_cases hlen : (prunedOf st).length ≠ (readSnapshotStack st.indexFile).length
  · rw [if_pos hlen]
    exact ⟨rfl, rfl, rfl, rfl, rfl⟩
  · rw [if_neg hlen]
    rw [not_not] at hlen
    exact ⟨rfl, rfl, ((List.filter_sublist _).eq_of_length hlen).symm, rfl, rfl⟩

/-- Removing the last occurrence of a label appended at the end. -/
lemma removeLastOcc_concat (xs : List Str) (label : Str) :
    removeLastOcc (xs ++ [label]) label = xs := by
  unfold removeLastOcc
  rw [List.reverse_append]
  simp [List.erase_cons_head]

/-- State effect of `dropSnapshot` for a label present in the stack: the
persisted stack loses the last occurrence of the label; the trees are
untouched. -/
lemma dropSnapshot_index_mem (label : Str) (st : GitState)
    (hmem : label ∈ readSnapshotStack st.indexFile) :
    readSnapshotStack (dropSnapshot label st).2.indexFile =
      removeLastOcc (readSnapshotStack st.indexFile) label ∧
    (dropSnapshot label st).2.worktree = st.worktree ∧
    (dropSnapshot label st).2.head = st.head ∧
    (dropSnapshot label st).2.isRepo = st.isRepo ∧
    (dropSnapshot label st).2.now = st.now := by
  simp only [dropSnapshot, if_pos hmem]
  cases hf : (listStashEntries (writeSnapshotStack st
      (removeLastOcc (readSnapshotStack st.indexFile) label))).find?
      (fun e => labelMatches e.2.subject label) with
  | none => exact ⟨rfl, rfl, rfl, rfl, rfl⟩
  | some target =>
    rcases target with ⟨i, e⟩
    have hmemt : (i, e) ∈ listStashEntries st := List.mem_of_find?_eq_some hf
    have hlt : i < st.stash.length := (List.mem_enum hmemt).1
    have hdrop : stashDrop (writeSnapshotStack st
        (removeLastOcc (readSnapshotStack st.indexFile) label)) i =
        .ok { writeSnapshotStack st
          (removeLastOcc (readSnapshotStack st.indexFile) label) with
            stash := st.stash.eraseIdx i } := by
      simp [stashDrop, writeSnapshotStack, hlt]
    dsimp only
    rw [hdrop]
    exact ⟨rfl, rfl, rfl, rfl, rfl⟩

/-- Wire shape of a non-aborted agent run (prompt-only route): normalized
events in source order, an error message on failure, one final `done`. -/
lemma runCodexPOST_wire_noabort (events : List ThreadEvent) (streamErr : Option Str)
    (agentWrites : Tree → Tree) (st0 : GitState) :
    ∃ (b : Bool) (stF : GitState),
      runCodexPOST events streamErr none agentWrites st0 =
        { wire := events.map (fun e => Wire.message (forwardEvent e)) ++
            (match streamErr with
             | none => [Wire.done { ok := true, hasSnapshots := some b }]
             | some msg => [Wire.message (.streamError msg),
                Wire.done { ok := false, error := some msg, hasSnapshots := some b }]),
          st := stF } := by
  unfold runCodexPOST
  rw [runLoop_none]
  cases streamErr with
  | none => exact ⟨_, _, rfl⟩
  | some msg => exact ⟨_, _, rfl⟩

/-- Wire and state of an aborted agent run (prompt-only route): a prefix of
the normalized events, no terminal signal, and the post-run decision
skipped. -/
lemma runCodexPOST_abort (events : List ThreadEvent) (streamErr : Option Str) (k : Nat)
    (agentWrites : Tree → Tree) (st0 : GitState) (hk : k < events.length) :
    runCodexPOST events streamErr (some k) agentWrites st0 =
      { wire := (events.take k).map (fun e => Wire.message (forwardEvent e)),
        st := { (createSnapshot (toStr "agent-run") st0).2 with
          worktree := agentWrites (createSnapshot (toStr "agent-run") st0).2.worktree } } := by
  rcases runLoop_abort events k hk with ⟨h1, f1, hlp⟩
  unfold runCodexPOST
  rw [hlp]
  rfl

/-- A concrete clean repository state. -/
def cleanState : GitState :=
  { isRepo := true, head := [(toStr "a.txt", toStr "x")],
    worktree := [(toStr "a.txt", toStr "x")], stash := [],
    indexFile := .jsonArray [], now := 0 }

/-- C3 counterexample: a client abort after the first forwarded event makes
the agent-run route close the stream silently: only the already-forwarded
normalized event is emitted and no terminal `done` signal ever follows,
contradicting the claim that a terminal signal is still emitted on
cancellation. -/
theorem c3_counterexample :
    (runCodexPOST [.turnStarted, .turnStarted] none (some 1) id cleanState).wire =
      [.message .turnStarted] ∧
    countDone (runCodexPOST [.turnStarted, .turnStarted] none (some 1) id cleanState).wire
      = 0 := by
  constructor
  · rfl
  · rfl

/-- C3 amended: a run of the agent-run route that completes or fails without
a client abort emits the normalized events in source order, then (on error)
one error message, then exactly one terminal `done` carrying `ok`,
`hasSnapshots` and the error text, with nothing after it; an aborted run
instead emits a prefix of the normalized events in source order and the
stream closes with no terminal signal at all. -/
theorem c3_done_signal (events : List ThreadEvent) (streamErr : Option Str)
    (agentWrites : Tree → Tree) (st0 : GitState) :
    (∃ d : DoneData,
      (runCodexPOST events streamErr none agentWrites st0).wire =
        events.map (fun e => Wire.message (forwardEvent e)) ++
          (match streamErr with
           | none => []
           | some msg => [Wire.message (.streamError msg)]) ++ [Wire.done d] ∧
      d.ok = streamErr.isNone ∧ d.error = streamErr) ∧
    countDone (runCodexPOST events streamErr none agentWrites st0).wire = 1 ∧
    (∀ k, k < events.length →
      (runCodexPOST events streamErr (some k) agentWrites st0).wire =
        (events.take k).map (fun e => Wire.message (forwardEvent e)) ∧
      countDone (runCodexPOST events streamErr (some k) agentWrites st0).wire = 0) := by
  rcases runCodexPOST_wire_noabort events streamErr agentWrites st0 with ⟨b, stF, heq⟩
  refine ⟨?_, ?_, ?_⟩
  · cases streamErr with
    | none =>
      refine ⟨{ ok := true, hasSnapshots := some b }, ?_, rfl, rfl⟩
      rw [heq]
      simp
    | some msg =>
      refine ⟨{ ok := false, error := some msg, hasSnapshots := some b }, ?_, rfl, rfl⟩
      rw [heq]
      simp
  · rw [heq]
    cases streamErr with
    | none => simp [countDone_append, countDone_messages, countDone, List.filter]
    | some msg => simp [countDone_append, countDone_messages, countDone, List.filter]
  · intro k hk
    rw [runCodexPOST_abort events streamErr k agentWrites st0 hk]
    exact ⟨rfl, countDone_messages _⟩

/-- Witness for the amended C3 at concrete runs. -/
theorem c3_done_signal_witness :
    countDone (runCodexPOST [.turnStarted] none none id cleanState).wire = 1 ∧
    countDone (runCodexPOST [.turnStarted, .turnStarted] none (some 1) id cleanState).wire
      = 0 :=
  ⟨(c3_done_signal [.turnStarted] none id cleanState).2.1,
   ((c3_done_signal [.turnStarted, .turnStarted] none id cleanState).2.2 1 (by decide)).2⟩

/-! ### Claim C4: snapshot growth -/

/-- Final state of a non-aborted prompt-only run without file changes. -/
lemma runCodexPOST_state_nofc_none (events : List ThreadEvent) (streamErr : Option Str)
    (agentWrites : Tree → Tree) (st0 : GitState)
    (hany : events.any isFileChangeEvent = false)
    (hpre : createSnapshot (toStr "agent-run") st0 = (none, st0)) :
    (runCodexPOST events streamErr none agentWrites st0).st =
      (getSnapshotSummary { st0 with worktree := agentWrites st0.worktree }).2 := by
  unfold runCodexPOST
  rw [runLoop_none, hpre, hany]
  cases streamErr <;> rfl

/-- Final state of a non-aborted prompt-only run without file changes whose
pre-run snapshot was created: the pre-run snapshot is dropped again. -/
lemma runCodexPOST_state_nofc_some (events : List ThreadEvent) (streamErr : Option Str)
    (agentWrites : Tree → Tree) (st0 st1 : GitState) (label : Str)
    (hany : events.any isFileChangeEvent = false)
    (hpre : createSnapshot (toStr "agent-run") st0 = (some label, st1)) :
    (runCodexPOST events streamErr none agentWrites st0).st =
      (getSnapshotSummary
        (dropSnapshot label { st1 with worktree := agentWrites st1.worktree }).2).2 := by
  unfold runCodexPOST
  rw [runLoop_none, hpre, hany]
  cases streamErr <;> rfl

/-- Final state of a non-aborted prompt-only run with file changes and no
pre-run snapshot: a post-run snapshot is attempted. -/
lemma runCodexPOST_state_fc_none (events : List ThreadEvent) (streamErr : Option Str)
    (agentWrites : Tree → Tree) (st0 : GitState)
    (hany : events.any isFileChangeEvent = true)
    (hpre : createSnapshot (toStr "agent-run") st0 = (none, st0)) :
    (runCodexPOST events streamErr none agentWrites st0).st =
      (getSnapshotSummary (createSnapshot (toStr "agent-run")
        { st0 with worktree := agentWrites st0.worktree }).2).2 := by
  unfold runCodexPOST
  rw [runLoop_none, hpre, hany]
  cases streamErr <;> rfl

/-- Final state of a non-aborted images run without file changes
(no pre-run snapshot case). -/
lemma runCodexImagesPOST_state_nofc_none (events : List ThreadEvent) (streamErr : Option Str)
    (agentWrites : Tree → Tree) (st0 : GitState)
    (hany : events.any isFileChangeEvent = false)
    (hpre : createSnapshot (toStr "agent-run-pre") st0 = (none, st0)) :
    (runCodexImagesPOST events streamErr none agentWrites st0).st =
      (getSnapshotSummary { st0 with worktree := agentWrites st0.worktree }).2 := by
  unfold runCodexImagesPOST
  rw [runLoop_none, hpre, hany]
  cases streamErr <;> rfl

/-- Final state of a non-aborted images run without file changes whose
pre-run snapshot was created. -/
lemma runCodexImagesPOST_state_nofc_some (events : List ThreadEvent) (streamErr : Option Str)
    (agentWrites : Tree → Tree) (st0 st1 : GitState) (label : Str)
    (hany : events.any isFileChangeEvent = false)
    (hpre : createSnapshot (toStr "agent-run-pre") st0 = (some label, st1)) :
    (runCodexImagesPOST events streamErr none agentWrites st0).st =
      (getSnapshotSummary
        (dropSnapshot label { st1 with worktree := agentWrites st1.worktree }).2).2 := by
  unfold runCodexImagesPOST
  rw [runLoop_none, hpre, hany]
  cases streamErr <;> rfl

/-- A concrete dirty repository state for the aborted-run counterexample. -/
def c4State : GitState :=
  { isRepo := true, head := [(toStr "a.txt", toStr "old")],
    worktree := [(toStr "a.txt", toStr "new")], stash := [],
    indexFile := .jsonArray [], now := 7 }

/-- C4 counterexample: an aborted run whose events contain no `file.change`
skips the post-run snapshot decision entirely: the pre-run snapshot stays on
the persisted stack (a net-new entry) and no `done` signal is emitted. -/
theorem c4_counterexample :
    readSnapshotStack c4State.indexFile = [] ∧
    readSnapshotStack (runCodexPOST [.turnStarted] none (some 0) id c4State).st.indexFile =
      [mkSnapshotLabel 7 (toStr "agent-run")] ∧
    countDone (runCodexPOST [.turnStarted] none (some 0) id c4State).wire = 0 := by
  refine ⟨rfl, by decide, by decide⟩

/-- C4 amended: for runs that reach their completion or error path (no
client abort): a run whose events contain no `file.change` leaves no
net-new entry in the snapshot stack — the final persisted stack is a sublist
of the initial one — on both agent-run route variants; and on the
prompt-only variant, when a `file.change` was observed and the pre-run
snapshot was skipped (started clean), a fresh post-run snapshot is created
before the `done` signal whenever the repository exists and the workspace is
dirty at that point, appending exactly one new entry.  An aborted run skips
this decision and can retain the pre-run snapshot. -/
theorem c4_no_growth :
    (∀ (events : List ThreadEvent) (streamErr : Option Str) (agentWrites : Tree → Tree)
        (st0 : GitState), events.any isFileChangeEvent = false →
      List.Sublist
        (readSnapshotStack (runCodexPOST events streamErr none agentWrites st0).st.indexFile)
        (readSnapshotStack st0.indexFile)) ∧
    (∀ (events : List ThreadEvent) (streamErr : Option Str) (agentWrites : Tree → Tree)
        (st0 : GitState), events.any isFileChangeEvent = false →
      List.Sublist
        (readSnapshotStack (runCodexImagesPOST events streamErr none agentWrites st0).st.indexFile)
        (readSnapshotStack st0.indexFile)) ∧
    (∀ (events : List ThreadEvent) (streamErr : Option Str) (agentWrites : Tree → Tree)
        (st0 : GitState), events.any isFileChangeEvent = true →
      st0.isRepo = true → diffT st0.head st0.worktree = [] →
      diffT st0.head (agentWrites st0.worktree) ≠ [] →
      ∃ rest, List.Sublist rest (readSnapshotStack st0.indexFile) ∧
        readSnapshotStack (runCodexPOST events streamErr none agentWrites st0).st.indexFile =
          rest ++ [mkSnapshotLabel st0.now (toStr "agent-run")]) := by
  have hdropchain : ∀ (st0 st1 : GitState) (label : Str) (w : Tree),
      st1.indexFile = .jsonArray (readSnapshotStack st0.indexFile ++ [label]) →
      readSnapshotStack (dropSnapshot label { st1 with worktree := w }).2.indexFile =
        readSnapshotStack st0.indexFile := by
    intro st0 st1 label w hidx
    have hmem : label ∈ readSnapshotStack ({ st1 with worktree := w } : GitState).indexFile := by
      show label ∈ readSnapshotStack st1.indexFile
      rw [hidx]
      simp [readSnapshotStack]
    rw [(dropSnapshot_index_mem _ _ hmem).1]
    have h2 : readSnapshotStack ({ st1 with worktree := w } : GitState).indexFile
        = readSnapshotStack st0.indexFile ++ [label] := by
      show readSnapshotStack st1.indexFile = _
      rw [hidx]
      rfl
    rw [h2, removeLastOcc_concat]
  refine ⟨?_, ?_, ?_⟩
  · intro events streamErr agentWrites st0 hany
    rcases createSnapshot_result (toStr "agent-run") st0 with hpre | ⟨st1, hpre, hpost⟩
    · rw [runCodexPOST_state_nofc_none events streamErr agentWrites st0 hany hpre,
        (getSnapshotSummary_state _).2.2.1]
      exact List.filter_sublist _
    · rw [runCodexPOST_state_nofc_some events streamErr agentWrites st0 st1 _ hany hpre,
        (getSnapshotSummary_state _).2.2.1]
      unfold prunedOf
      rw [hdropchain st0 st1 _ _ hpost.2.1]
      exact List.filter_sublist _
  · intro events streamErr agentWrites st0 hany
    rcases createSnapshot_result (toStr "agent-run-pre") st0 with hpre | ⟨st1, hpre, hpost⟩
    · rw [runCodexImagesPOST_state_nofc_none events streamErr agentWrites st0 hany hpre,
        (getSnapshotSummary_state _).2.2.1]
      exact List.filter_sublist _
    · rw [runCodexImagesPOST_state_nofc_some events streamErr agentWrites st0 st1 _ hany hpre,
        (getSnapshotSummary_state _).2.2.1]
      unfold prunedOf
      rw [hdropchain st0 st1 _ _ hpost.2.1]
      exact List.filter_sublist _
  · intro events streamErr agentWrites st0 hany hrepo hclean hdirty
    have hpre : createSnapshot (toStr "agent-run") st0 = (none, st0) :=
      (createSnapshot_cases _ st0).2.1 hrepo hclean
    rcases (createSnapshot_cases (toStr "agent-run")
        { st0 with worktree := agentWrites st0.worktree }).2.2 hrepo hdirty with
      ⟨stC, heqC, hpostC⟩
    rw [runCodexPOST_state_fc_none events streamErr agentWrites st0 hany hpre, heqC]
    refine ⟨(readSnapshotStack st0.indexFile).filter (hasMatch (listStashEntries stC)),
      List.filter_sublist _, ?_⟩
    have hsum := (getSnapshotSummary_state stC).2.2.1
    show readSnapshotStack (getSnapshotSummary stC).2.indexFile = _
    rw [hsum]
    unfold prunedOf
    have hidx : readSnapshotStack stC.indexFile
        = readSnapshotStack st0.indexFile ++ [mkSnapshotLabel st0.now (toStr "agent-run")] := by
      rw [hpostC.2.1]
      rfl
    rw [hidx, List.filter_append]
    have hpL : hasMatch (listStashEntries stC) (mkSnapshotLabel st0.now (toStr "agent-run"))
        = true := by
      unfold hasMatch listStashEntries
      rw [hpostC.1, List.enum_cons]
      simp only [List.any_cons]
      have hself := labelMatches_self (mkSnapshotLabel st0.now (toStr "agent-run"))
      rw [Bool.or_eq_true]
      left
      exact hself
    rw [show ([mkSnapshotLabel st0.now (toStr "agent-run")].filter
        (hasMatch (listStashEntries stC)))
        = [mkSnapshotLabel st0.now (toStr "agent-run")] by simp [hpL]]

/-- Witness for the amended C4: a run with no file change leaves the stack
unchanged. -/
theorem c4_no_growth_witness :
    List.Sublist
      (readSnapshotStack (runCodexPOST [ThreadEvent.turnStarted] none none id c4State).st.indexFile)
      (readSnapshotStack c4State.indexFile) :=
  c4_no_growth.1 [.turnStarted] none id c4State (by decide)

/-! ### Claim C8: theme no-op fast path -/

/-- C8: when the theme file already contains the requested token values (the
deterministic substitution is a no-op), the theme endpoint never creates a
snapshot (stash unchanged, persisted stack not grown), never invokes the
external agent, and immediately emits a terminal signal with `ok` true and
reason `no_changes`. -/
theorem c8_theme_noop (primaryRaw accentRaw content : Str) (payload : ThemePayload)
    (events : List ThreadEvent) (streamErr : Option Str) (abortAt : Option Nat)
    (agentWrites : Tree → Tree) (st0 : GitState)
    (hval : validateTheme primaryRaw accentRaw = some payload)
    (hfile : lookupT st0.worktree THEME_FILE = some content)
    (hnoop : themeApply content payload = .ok content) :
    themeStreamPOST primaryRaw accentRaw events streamErr abortAt agentWrites st0 =
      { response400 := none,
        wire := [.message (.themeCompletedNoop (getSnapshotSummary st0).1.hasSnapshots
            payload.primary payload.accent),
          .done { ok := true, hasSnapshots := some (getSnapshotSummary st0).1.hasSnapshots,
                  reason := some (toStr "no_changes") }],
        st := (getSnapshotSummary st0).2, agentInvoked := false } ∧
    (getSnapshotSummary st0).2.stash = st0.stash ∧
    List.Sublist (readSnapshotStack (getSnapshotSummary st0).2.indexFile)
      (readSnapshotStack st0.indexFile) ∧
    (getSnapshotSummary st0).2.worktree = st0.worktree := by
  have hres : resolveWorkspacePath [THEME_FILE] =
      some (pathJoin WORKSPACE_ROOT [THEME_FILE]) := by decide
  refine ⟨?_, (getSnapshotSummary_state st0).1, ?_, (getSnapshotSummary_state st0).2.1⟩
  · simp only [themeStreamPOST, hval, hres, hfile, hnoop]
    rw [if_pos (beq_self_eq_true content)]
  · rw [(getSnapshotSummary_state st0).2.2.1]
    exact List.filter_sublist _

/-- A concrete state whose theme file already holds the requested colours. -/
def c8State : GitState :=
  { isRepo := true, head := [], stash := [], indexFile := .jsonArray [], now := 9,
    worktree :=
      [(THEME_FILE, toStr "--accent-primary: #2563eb;--accent-secondary: #38bdf8;")] }

/-- Witness for C8 at a concrete no-op theme request. -/
theorem c8_theme_noop_witness :
    themeStreamPOST (toStr "#2563eb") (toStr "#38bdf8") [] none none id c8State =
      { response400 := none,
        wire := [.message (.themeCompletedNoop (getSnapshotSummary c8State).1.hasSnapshots
            (toStr "#2563eb") (toStr "#38bdf8")),
          .done { ok := true, hasSnapshots := some (getSnapshotSummary c8State).1.hasSnapshots,
                  reason := some (toStr "no_changes") }],
        st := (getSnapshotSummary c8State).2, agentInvoked := false } :=
  (c8_theme_noop (toStr "#2563eb") (toStr "#38bdf8")
    (toStr "--accent-primary: #2563eb;--accent-secondary: #38bdf8;")
    { primary := toStr "#2563eb", accent := toStr "#38bdf8" }
    [] none none id c8State (by rfl) (by rfl) (by rfl)).1

/-! ### Claim C5: strict LIFO restore

A scenario is a list of (purpose, captured tree) pairs: for each pair the
working tree is set to the captured tree (the file-touching activity) and
`createSnapshot` is called.  The undo phase then calls `applyLatestSnapshot`
once per snapshot. -/

/-- Execute the scenario setup: for each pair, touch files then snapshot. -/
def setupSnapshots : List (Str × Tree) → GitState → GitState
  | [], st => st
  | (purpose, v) :: rest, st =>
    setupSnapshots rest (createSnapshot purpose { st with worktree := v }).2

/-- The labels the scenario generates, oldest first. -/
def scenLabels (now : Nat) : List (Str × Tree) → List Str
  | [] => []
  | (purpose, _) :: rest => mkSnapshotLabel now purpose :: scenLabels (now + 1) rest

/-- The stash entries the scenario generates, newest first. -/
def scenEntries (head : Tree) (now : Nat) : List (Str × Tree) → List StashEntry
  | [] => []
  | (purpose, v) :: rest =>
    scenEntries head (now + 1) rest ++
      [⟨stashSubject (mkSnapshotLabel now purpose), diffT head v⟩]

/-- Results of `n` consecutive `applyLatestSnapshot` calls, paired with the
working tree after each call. -/
def undoTrace : Nat → GitState → List ((Except Str ApplyResult) × Tree)
  | 0, _ => []
  | n + 1, st =>
    ((applyLatestSnapshot st).1, (applyLatestSnapshot st).2.worktree) ::
      undoTrace n (applyLatestSnapshot st).2

/-- The state after `n` consecutive `applyLatestSnapshot` calls. -/
def undoN : Nat → GitState → GitState
  | 0, st => st
  | n + 1, st => undoN n (applyLatestSnapshot st).2

/-- Expected undo results over the reversed captured trees (newest first):
each call reports one snapshot fewer remaining and restores the next
captured tree down, the head tree at the bottom. -/
def expectedUndo (head : Tree) : List Tree → List (ApplyResult × Tree)
  | [] => []
  | _ :: restRev =>
    ({ applied := true, remaining := some restRev.length, reason := none },
      match restRev with | [] => head | w :: _ => w) :: expectedUndo head restRev

/-- Pointwise agreement of an undo trace with the expected results, working
trees compared by lookup. -/
def TraceMatches : List ((Except Str ApplyResult) × Tree) → List (ApplyResult × Tree) → Prop
  | [], [] => True
  | (r, t) :: rest, (r', t') :: rest' =>
    r = .ok r' ∧ (∀ q, lookupT t q = lookupT t' q) ∧ TraceMatches rest rest'
  | _, _ => False

/-- Boolean `any` over an enumeration ignores the indices. -/
lemma any_enumFrom_snd {α : Type} (p : α → Bool) :
    ∀ (l : List α) (i : Nat), (List.enumFrom i l).any (fun e => p e.2) = l.any p := by
  intro l
  induction l with
  | nil => intro i; rfl
  | cons a rest ih => intro i; simp [List.enumFrom, ih]

/-- Boolean `any` over `enum` ignores the indices. -/
lemma any_enum_snd {α : Type} (p : α → Bool) (l : List α) :
    l.enum.any (fun e => p e.2) = l.any p := any_enumFrom_snd p l 0

/-- Scenario labels of an appended snapshot. -/
lemma scenLabels_concat (p2 : Str) (v2 : Tree) :
    ∀ (scen : List (Str × Tree)) (n0 : Nat),
      scenLabels n0 (scen ++ [(p2, v2)]) =
        scenLabels n0 scen ++ [mkSnapshotLabel (n0 + scen.length) p2] := by
  intro scen
  induction scen with
  | nil => intro n0; simp [scenLabels]
  | cons pv rest ih =>
    intro n0
    rcases pv with ⟨p, v⟩
    rw [List.cons_append, scenLabels, scenLabels, ih (n0 + 1)]
    simp only [List.cons_append, List.length_cons]
    rw [show n0 + 1 + rest.length = n0 + (rest.length + 1) from by omega]

/-- Scenario entries of an appended snapshot. -/
lemma scenEntries_concat (head : Tree) (p2 : Str) (v2 : Tree) :
    ∀ (scen : List (Str × Tree)) (n0 : Nat),
      scenEntries head n0 (scen ++ [(p2, v2)]) =
        ⟨stashSubject (mkSnapshotLabel (n0 + scen.length) p2), diffT head v2⟩ ::
          scenEntries head n0 scen := by
  intro scen
  induction scen with
  | nil => intro n0; simp [scenEntries]
  | cons pv rest ih =>
    intro n0
    rcases pv with ⟨p, v⟩
    rw [List.cons_append, scenEntries, scenEntries, ih (n0 + 1)]
    simp only [List.cons_append, List.length_cons]
    rw [show n0 + 1 + rest.length = n0 + (rest.length + 1) from by omega]

/-- Length of the scenario labels. -/
lemma scenLabels_length : ∀ (scen : List (Str × Tree)) (n0 : Nat),
    (scenLabels n0 scen).length = scen.length := by
  intro scen
  induction scen with
  | nil => intro n0; rfl
  | cons pv rest ih => intro n0; rcases pv with ⟨p, v⟩; simp [scenLabels, ih]

/-- Every scenario label is matched by some scenario entry. -/
lemma scenLabels_matched (head : Tree) :
    ∀ (scen : List (Str × Tree)) (n0 : Nat) (L : Str), L ∈ scenLabels n0 scen →
      (scenEntries head n0 scen).any (fun E => labelMatches E.subject L) = true := by
  intro scen
  induction scen with
  | nil => intro n0 L h; simp [scenLabels] at h
  | cons pv rest ih =>
    intro n0 L h
    rcases pv with ⟨p, v⟩
    rw [scenLabels] at h
    rw [scenEntries, List.any_append]
    rcases List.mem_cons.mp h with h | h
    · subst h
      simp [labelMatches_self]
    · rw [ih (n0 + 1) L h]
      simp

/-- `checkoutPaths` succeeds when every path exists in the head and rewrites
exactly those paths to their head content. -/
lemma checkoutPaths_ok :
    ∀ (paths : List Str) (st : GitState),
      (∀ p ∈ paths, (lookupT st.head p).isSome = true) →
      ∃ st', checkoutPaths st paths = .ok st' ∧
        st'.head = st.head ∧ st'.stash = st.stash ∧ st'.indexFile = st.indexFile ∧
        st'.isRepo = st.isRepo ∧ st'.now = st.now ∧
        ∀ q, lookupT st'.worktree q =
          if q ∈ paths then lookupT st.head q else lookupT st.worktree q := by
  intro paths
  induction paths with
  | nil =>
    intro st _
    exact ⟨st, rfl, rfl, rfl, rfl, rfl, rfl, fun q => by simp⟩
  | cons p rest ih =>
    intro st hin
    have hp := hin p (by simp)
    rcases ho : lookupT st.head p with _ | c
    · rw [ho] at hp
      simp at hp
    · rcases ih { st with worktree := setOptT st.worktree p (some c) }
        (fun q hq => hin q (List.mem_cons_of_mem _ hq)) with
        ⟨st', heq, hh, hs, hi2, hr, hn, hlook⟩
      refine ⟨st', ?_, hh, hs, hi2, hr, hn, ?_⟩
      · simp only [checkoutPaths, ho]
        exact heq
      · intro q
        rw [hlook q]
        by_cases hq1 : q ∈ rest
        · simp [hq1]
        · by_cases hq2 : q = p
          · subst hq2
            simp [hq1, lookupT_setOptT, ho]
          · have : ¬ q ∈ p :: rest := by
              simp [hq1, hq2]
            simp [hq1, hq2, this, lookupT_setOptT]

/-- Applying the diff of head against a target onto any tree that looks like
the head yields the target. -/
lemma applyPatch_diffT_equiv (head v wt : Tree)
    (hwt : ∀ q, lookupT wt q = lookupT head q) :
    ∃ wt', applyPatch wt (diffT head v) = .ok wt' ∧
      ∀ q, lookupT wt' q = lookupT v q := by
  have hclean : ∀ e ∈ diffT head v, lookupT wt e.path = e.oldContent := by
    intro e he
    rw [hwt]
    exact ((mem_diffT head v e he).1).symm
  rcases applyPatch_ok wt (diffT head v) (diffT_nodup_paths head v) hclean with
    ⟨wt', happ, hlook⟩
  refine ⟨wt', happ, fun q => ?_⟩
  rw [hlook q]
  cases hf : (diffT head v).find? (fun e => e.path == q) with
  | some e =>
    have hm := List.mem_of_find?_eq_some hf
    have hpq : e.path = q := by simpa using List.find?_some hf
    rw [← hpq]
    exact (mem_diffT head v e hm).2.1
  | none =>
    rw [hwt]
    refine not_mem_diffT head v q ?_
    intro e he hcontra
    have := List.find?_eq_none.mp hf e he
    simp [hcontra] at this

/-- State after the scenario setup: all snapshots stacked newest-first in the
stash, all labels appended oldest-first to the persisted stack, the head
untouched, and the working tree agreeing with the last captured tree. -/
lemma setupSnapshots_spec :
    ∀ (scen : List (Str × Tree)) (st : GitState),
      st.isRepo = true →
      (∀ pv ∈ scen, diffT st.head pv.2 ≠ []) →
      (setupSnapshots scen st).isRepo = true ∧
      (setupSnapshots scen st).head = st.head ∧
      (setupSnapshots scen st).stash = scenEntries st.head st.now scen ++ st.stash ∧
      readSnapshotStack (setupSnapshots scen st).indexFile =
        readSnapshotStack st.indexFile ++ scenLabels st.now scen ∧
      (∀ pv, scen.getLast? = some pv →
        ∀ q, lookupT (setupSnapshots scen st).worktree q = lookupT pv.2 q) := by
  intro scen
  induction scen with
  | nil =>
    intro st hrepo _
    refine ⟨hrepo, rfl, by simp [setupSnapshots, scenEntries],
      by simp [setupSnapshots, scenLabels], ?_⟩
    intro pv hpv
    simp at hpv
  | cons pv0 rest ih =>
    intro st hrepo hdirty
    rcases pv0 with ⟨p, v⟩
    have hd1 : diffT ({ st with worktree := v } : GitState).head
        ({ st with worktree := v } : GitState).worktree ≠ [] :=
      hdirty (p, v) (by simp)
    rcases (createSnapshot_cases p { st with worktree := v }).2.2 hrepo hd1 with
      ⟨st2, heq, hpost⟩
    have hsetup : setupSnapshots ((p, v) :: rest) st = setupSnapshots rest st2 := by
      show setupSnapshots rest (createSnapshot p { st with worktree := v }).2 =
        setupSnapshots rest st2
      rw [heq]
    have hrepo2 : st2.isRepo = true := by
      rw [hpost.2.2.2.2.1]
      exact hrepo
    have hhead2 : st2.head = st.head := hpost.2.2.2.1
    have hnow2 : st2.now = st.now + 1 := hpost.2.2.2.2.2
    have hdirty2 : ∀ pv ∈ rest, diffT st2.head pv.2 ≠ [] := by
      intro pv hpv
      rw [hhead2]
      exact hdirty pv (List.mem_cons_of_mem _ hpv)
    rcases ih st2 hrepo2 hdirty2 with ⟨ih1, ih2, ih3, ih4, ih5⟩
    rw [hsetup]
    refine ⟨ih1, by rw [ih2, hhead2], ?_, ?_, ?_⟩
    · rw [ih3, hpost.1, hhead2, hnow2]
      simp [scenEntries, List.append_assoc]
    · rw [ih4, hnow2]
      have hidx2 : readSnapshotStack st2.indexFile =
          readSnapshotStack st.indexFile ++ [mkSnapshotLabel st.now p] := by
        rw [hpost.2.1]
        rfl
      rw [hidx2]
      simp [scenLabels, List.append_assoc]
    · intro pv hpv
      cases rest with
      | nil =>
        have hpveq : pv = (p, v) := by
          simp at hpv
          rw [hpv]
        subst hpveq
        intro q
        show lookupT st2.worktree q = lookupT v q
        rw [hpost.2.2.1 q]
      | cons r rs =>
        rw [List.getLast?_cons_cons] at hpv
        exact ih5 pv hpv

/-- A tree whose diff paths were checked out from the head looks like the
head everywhere. -/
lemma checkout_diff_equiv (head v wt wt' : Tree)
    (hwt : ∀ q, lookupT wt q = lookupT v q)
    (hafter : ∀ q, lookupT wt' q =
      if q ∈ extractPathsFromPatch (diffT head v) then lookupT head q else lookupT wt q) :
    ∀ q, lookupT wt' q = lookupT head q := by
  intro q
  rw [hafter q]
  by_cases hq : q ∈ extractPathsFromPatch (diffT head v)
  · rw [if_pos hq]
  · rw [if_neg hq, hwt q]
    refine (not_mem_diffT head v q ?_).symm
    intro e he hcontra
    refine hq ?_
    unfold extractPathsFromPatch
    rw [List.mem_dedup]
    rw [← hcontra]
    exact List.mem_map.mpr ⟨e, he, rfl⟩

/-- `hasMatch` over an enumerated stash ignores the stash refs. -/
lemma hasMatch_enum (stash : List StashEntry) (L : Str) :
    hasMatch stash.enum L = stash.any (fun E => labelMatches E.subject L) := by
  unfold hasMatch
  exact any_enum_snd (fun E => labelMatches E.subject L) stash

/-- Paths touched by a captured diff all exist in the head tree when every
diff entry records a previous content. -/
lemma diff_paths_in_head (H v : Tree)
    (hhp : ∀ e ∈ diffT H v, e.oldContent.isSome = true) :
    ∀ q ∈ extractPathsFromPatch (diffT H v), (lookupT H q).isSome = true := by
  intro q hq
  unfold extractPathsFromPatch at hq
  rw [List.mem_dedup] at hq
  rcases List.mem_map.mp hq with ⟨e, he, hpe⟩
  have h1 := hhp e he
  have h2 := (mem_diffT H v e he).1
  rw [← hpe, ← h2]
  exact h1

/-- One undo step over the scenario invariant: `applyLatestSnapshot` pops
exactly the newest snapshot, drops its stash entry, persists the shortened
stack, restores the popped snapshot's paths from the head and re-materialises
the next snapshot down (the head itself when none remains). -/
lemma applyLatest_step (H : Tree) (n0 : Nat) (scen : List (Str × Tree))
    (p2 : Str) (v2 : Tree) (st : GitState)
    (hrepo : st.isRepo = true) (hhead : st.head = H)
    (hstash : st.stash = scenEntries H n0 (scen ++ [(p2, v2)]))
    (hindex : readSnapshotStack st.indexFile = scenLabels n0 (scen ++ [(p2, v2)]))
    (hwt : ∀ q, lookupT st.worktree q = lookupT v2 q)
    (hheadpaths : ∀ pv ∈ scen ++ [(p2, v2)], ∀ e ∈ diffT H pv.2,
      e.oldContent.isSome = true) :
    ∃ st',
      applyLatestSnapshot st =
        (.ok { applied := true, remaining := some scen.length, reason := none }, st') ∧
      st'.isRepo = true ∧ st'.head = H ∧
      st'.stash = scenEntries H n0 scen ∧
      st'.indexFile = .jsonArray (scenLabels n0 scen) ∧
      (∀ pv, scen.getLast? = some pv → ∀ q, lookupT st'.worktree q = lookupT pv.2 q) ∧
      (scen = [] → ∀ q, lookupT st'.worktree q = lookupT H q) := by
  have hpruned : prunedOf st = scenLabels n0 (scen ++ [(p2, v2)]) := by
    show (readSnapshotStack st.indexFile).filter (hasMatch (listStashEntries st)) = _
    rw [hindex]
    apply List.filter_eq_self.mpr
    intro L hL
    show hasMatch (listStashEntries st) L = true
    unfold listStashEntries
    rw [hstash, hasMatch_enum]
    exact scenLabels_matched H (scen ++ [(p2, v2)]) n0 L hL
  have hlen : ¬ ((prunedOf st).length ≠ (readSnapshotStack st.indexFile).length) := by
    rw [hpruned, hindex]
    simp
  have hfind : (listStashEntries st).find?
      (fun e => labelMatches e.2.subject (mkSnapshotLabel (n0 + scen.length) p2)) =
      some (0, ⟨stashSubject (mkSnapshotLabel (n0 + scen.length) p2), diffT H v2⟩) := by
    unfold listStashEntries
    rw [hstash, scenEntries_concat, List.enum_cons]
    exact List.find?_cons_of_pos _ (labelMatches_self _)
  have hfilt2 : (diffT H v2).filter (fun en => en.oldContent.isSome) = diffT H v2 :=
    List.filter_eq_self.mpr (hheadpaths (p2, v2) (by simp))
  have hpatch : getPatchForRef st 0 = .ok (diffT H v2) := by
    unfold getPatchForRef
    rw [hstash, scenEntries_concat]
    simp [hfilt2]
  have hdrop : stashDrop st 0 = .ok { st with stash := scenEntries H n0 scen } := by
    unfold stashDrop
    rw [hstash, scenEntries_concat, if_pos (by simp)]
    simp
  have hin2 : ∀ q ∈ extractPathsFromPatch (diffT H v2),
      (lookupT (writeSnapshotStack { st with stash := scenEntries H n0 scen }
        (scenLabels n0 scen)).head q).isSome = true := by
    intro q hq
    rw [show (writeSnapshotStack { st with stash := scenEntries H n0 scen }
      (scenLabels n0 scen)).head = H from hhead]
    exact diff_paths_in_head H v2 (hheadpaths (p2, v2) (by simp)) q hq
  rcases checkoutPaths_ok (extractPathsFromPatch (diffT H v2))
      (writeSnapshotStack { st with stash := scenEntries H n0 scen } (scenLabels n0 scen))
      hin2 with ⟨st4, hco, hh4, hs4, hi4, hr4, hn4, hlook4⟩
  have heval : applyLatestSnapshot st =
      (if (scenLabels n0 scen).isEmpty then
        (.ok { applied := true, remaining := some 0, reason := none }, st4)
      else restoreNext (scenLabels n0 scen) st4) := by
    rw [applyLatestSnapshot_eq st hrepo, if_neg hlen, hpruned, scenLabels_concat,
      applyLoop_found _ _ _ _ _ hfind]
    dsimp only
    rw [hpatch]
    dsimp only
    rw [hdrop]
    dsimp only
    rw [hco]
  have hafter : ∀ q, lookupT st4.worktree q =
      if q ∈ extractPathsFromPatch (diffT H v2)
        then lookupT H q else lookupT st.worktree q := by
    intro q
    rw [hlook4 q]
    rw [show (writeSnapshotStack { st with stash := scenEntries H n0 scen }
      (scenLabels n0 scen)).head = H from hhead]
    rfl
  have hwt4 : ∀ q, lookupT st4.worktree q = lookupT H q :=
    checkout_diff_equiv H v2 st.worktree st4.worktree hwt hafter
  have hstash4 : st4.stash = scenEntries H n0 scen := hs4
  have hindex4 : st4.indexFile = .jsonArray (scenLabels n0 scen) := hi4
  have hrepo4 : st4.isRepo = true := by
    rw [hr4]
    exact hrepo
  have hhead4 : st4.head = H := by
    rw [hh4]
    exact hhead
  rcases scen.eq_nil_or_concat with hnil | ⟨ys, pv1, hconc⟩
  · subst hnil
    refine ⟨st4, ?_, hrepo4, hhead4, hstash4, hindex4, ?_, fun _ => hwt4⟩
    · rw [heval]
      simp [scenLabels]
    · intro pv hpv
      simp at hpv
  · rcases pv1 with ⟨p1, v1⟩
    have hconc' : scen = ys ++ [(p1, v1)] := by
      rw [hconc]
      simp
    subst hconc'
    have hne : (scenLabels n0 (ys ++ [(p1, v1)])).isEmpty = false := by
      rw [scenLabels_concat]
      simp
    rw [hne] at heval
    simp only [Bool.false_eq_true, if_false] at heval
    have hfilter4 : (scenLabels n0 (ys ++ [(p1, v1)])).filter
        (hasMatch (listStashEntries st4)) = scenLabels n0 (ys ++ [(p1, v1)]) := by
      apply List.filter_eq_self.mpr
      intro L hL
      show hasMatch (listStashEntries st4) L = true
      unfold listStashEntries
      rw [hstash4, hasMatch_enum]
      exact scenLabels_matched H (ys ++ [(p1, v1)]) n0 L hL
    have hfind2 : (listStashEntries st4).find?
        (fun e => labelMatches e.2.subject (mkSnapshotLabel (n0 + ys.length) p1)) =
        some (0, ⟨stashSubject (mkSnapshotLabel (n0 + ys.length) p1), diffT H v1⟩) := by
      unfold listStashEntries
      rw [hstash4, scenEntries_concat, List.enum_cons]
      exact List.find?_cons_of_pos _ (labelMatches_self _)
    have hfilt1 : (diffT H v1).filter (fun en => en.oldContent.isSome) = diffT H v1 :=
      List.filter_eq_self.mpr
        (hheadpaths (p1, v1) (List.mem_append_left _ (by simp)))
    have hpatch2 : getPatchForRef st4 0 = .ok (diffT H v1) := by
      unfold getPatchForRef
      rw [hstash4, scenEntries_concat]
      simp [hfilt1]
    have hin1 : ∀ q ∈ extractPathsFromPatch (diffT H v1),
        (lookupT st4.head q).isSome = true := by
      intro q hq
      rw [hhead4]
      refine diff_paths_in_head H v1 (hheadpaths (p1, v1) ?_) q hq
      exact List.mem_append_left _ (by simp)
    rcases checkoutPaths_ok (extractPathsFromPatch (diffT H v1)) st4 hin1 with
      ⟨st6, hco6, hh6, hs6, hi6, hr6, hn6, hlook6⟩
    have hwt6H : ∀ q, lookupT st6.worktree q = lookupT H q := by
      intro q
      rw [hlook6 q]
      by_cases hq : q ∈ extractPathsFromPatch (diffT H v1)
      · rw [if_pos hq, hhead4]
      · rw [if_neg hq]
        exact hwt4 q
    rcases applyPatch_diffT_equiv H v1 st6.worktree hwt6H with ⟨wt', happ, hlookv1⟩
    have hrn : restoreNext (scenLabels n0 (ys ++ [(p1, v1)])) st4 =
        (.ok { applied := true, remaining := some ((ys ++ [(p1, v1)]).length),
               reason := none },
          { st6 with worktree := wt' }) := by
      simp only [restoreNext, filterSnapshotStack]
      rw [hfilter4, if_neg (by simp), scenLabels_concat, List.getLast?_concat]
      dsimp only
      rw [hfind2]
      dsimp only
      rw [hpatch2]
      dsimp only
      rw [hco6]
      dsimp only
      rw [happ]
      simp [scenLabels_length]
    refine ⟨{ st6 with worktree := wt' }, ?_, ?_, ?_, ?_, ?_, ?_, ?_⟩
    · rw [heval, hrn]
    · show st6.isRepo = true
      rw [hr6]
      exact hrepo4
    · show st6.head = H
      rw [hh6]
      exact hhead4
    · show st6.stash = scenEntries H n0 (ys ++ [(p1, v1)])
      rw [hs6]
      exact hstash4
    · show st6.indexFile = .jsonArray (scenLabels n0 (ys ++ [(p1, v1)]))
      rw [hi6]
      exact hindex4
    · intro pv hpv
      rw [List.getLast?_concat] at hpv
      have hpveq : pv = (p1, v1) := by
        injection hpv with h
        rw [h]
      subst hpveq
      intro q
      exact hlookv1 q
    · intro hcontra
      simp at hcontra

/-- Unfolding `TraceMatches` on two matching conses. -/
lemma TraceMatches_cons (r : Except Str ApplyResult) (t : Tree) (r' : ApplyResult)
    (t' : Tree) (rest : List ((Except Str ApplyResult) × Tree))
    (rest' : List (ApplyResult × Tree)) :
    TraceMatches ((r, t) :: rest) ((r', t') :: rest') ↔
      (r = .ok r' ∧ (∀ q, lookupT t q = lookupT t' q) ∧ TraceMatches rest rest') :=
  Iff.rfl

/-- The undo phase: from the scenario invariant, `N` consecutive
`applyLatestSnapshot` calls produce exactly the expected LIFO trace and leave
both the stash and the persisted stack empty. -/
lemma undo_phase (H : Tree) (n0 : Nat) :
    ∀ (scen : List (Str × Tree)) (st : GitState),
      st.isRepo = true → st.head = H →
      st.stash = scenEntries H n0 scen →
      readSnapshotStack st.indexFile = scenLabels n0 scen →
      (∀ pv, scen.getLast? = some pv → ∀ q, lookupT st.worktree q = lookupT pv.2 q) →
      (∀ pv ∈ scen, ∀ e ∈ diffT H pv.2, e.oldContent.isSome = true) →
      TraceMatches (undoTrace scen.length st)
        (expectedUndo H (scen.map (fun pv => pv.2)).reverse) ∧
      (undoN scen.length st).stash = [] ∧
      readSnapshotStack (undoN scen.length st).indexFile = [] := by
  intro scen
  induction scen using List.reverseRecOn with
  | nil =>
    intro st _ _ hstash hindex _ _
    exact ⟨trivial, hstash, hindex⟩
  | append_singleton ys pv2 ih =>
    intro st hrepo hhead hstash hindex hwtlast hheadpaths
    rcases pv2 with ⟨p2, v2⟩
    have hwt : ∀ q, lookupT st.worktree q = lookupT v2 q :=
      hwtlast (p2, v2) (List.getLast?_concat _)
    rcases applyLatest_step H n0 ys p2 v2 st hrepo hhead hstash hindex hwt hheadpaths with
      ⟨st', heq, hrepo', hhead', hstash', hindex', hwtlast', hwtH'⟩
    have hlen : (ys ++ [(p2, v2)]).length = ys.length + 1 := by simp
    rw [hlen]
    have htr : undoTrace (ys.length + 1) st =
        (.ok { applied := true, remaining := some ys.length, reason := none },
          st'.worktree) :: undoTrace ys.length st' := by
      rw [undoTrace, heq]
    have hun : undoN (ys.length + 1) st = undoN ys.length st' := by
      rw [undoN, heq]
    have hindex'' : readSnapshotStack st'.indexFile = scenLabels n0 ys := by
      rw [hindex']
      rfl
    have hheadpaths' : ∀ pv ∈ ys, ∀ e ∈ diffT H pv.2, e.oldContent.isSome = true :=
      fun pv hpv => hheadpaths pv (List.mem_append_left _ hpv)
    rcases ih st' hrepo' hhead' hstash' hindex'' hwtlast' hheadpaths' with
      ⟨ihtr, ihstash, ihindex⟩
    have hmap : ((ys ++ [(p2, v2)]).map (fun pv => pv.2)).reverse =
        v2 :: (ys.map (fun pv => pv.2)).reverse := by simp
    refine ⟨?_, by rw [hun]; exact ihstash, by rw [hun]; exact ihindex⟩
    rw [htr, hmap]
    refine (TraceMatches_cons _ _ _ _ _ _).mpr ⟨by simp, ?_, ihtr⟩
    rcases ys.eq_nil_or_concat with hnil | ⟨zs, pv1, hconc⟩
    · subst hnil
      exact hwtH' rfl
    · rcases pv1 with ⟨p1, v1⟩
      have hconc' : ys = zs ++ [(p1, v1)] := by
        rw [hconc]
        simp
      subst hconc'
      have hrr : ((zs ++ [(p1, v1)]).map (fun pv => pv.2)).reverse =
          v1 :: (zs.map (fun pv => pv.2)).reverse := by simp
      rw [hrr]
      exact hwtlast' (p1, v1) (List.getLast?_concat _)

/-- C5 (amended): the snapshot stack is strict LIFO for tracked-file
activity.  For any sequence of N `createSnapshot` calls, each preceded by
file-touching activity that only modifies or deletes files already tracked by
HEAD (every captured diff entry has a previous content), N consecutive
`applyLatestSnapshot` calls restore the captured states in exact reverse order
of creation — each call reports success with one snapshot fewer remaining and
leaves the working tree equal to the next-newest captured tree (the head tree
at the bottom), ordering determined purely by stack position — and afterwards
both the stash and the persisted stack are empty.  File-creating activity is
excluded: `git stash show --patch` omits untracked files, which breaks the
restore (see the C5 counterexample). -/
theorem c5_lifo_undo (scen : List (Str × Tree)) (st0 : GitState)
    (hrepo : st0.isRepo = true) (hstash0 : st0.stash = [])
    (hindex0 : readSnapshotStack st0.indexFile = [])
    (hdirty : ∀ pv ∈ scen, diffT st0.head pv.2 ≠ [])
    (hheadpaths : ∀ pv ∈ scen, ∀ e ∈ diffT st0.head pv.2, e.oldContent.isSome = true) :
    TraceMatches (undoTrace scen.length (setupSnapshots scen st0))
      (expectedUndo st0.head (scen.map (fun pv => pv.2)).reverse) ∧
    (undoN scen.length (setupSnapshots scen st0)).stash = [] ∧
    readSnapshotStack (undoN scen.length (setupSnapshots scen st0)).indexFile = [] := by
  rcases setupSnapshots_spec scen st0 hrepo hdirty with ⟨h1, h2, h3, h4, h5⟩
  refine undo_phase st0.head st0.now scen (setupSnapshots scen st0) h1 h2 ?_ ?_ h5
    hheadpaths
  · rw [h3, hstash0]
    simp
  · rw [h4, hindex0]
    simp

/-- Initial repository state for the LIFO witness scenario. -/
def c5St0 : GitState :=
  { isRepo := true, head := [(toStr "a", toStr "0")],
    worktree := [(toStr "a", toStr "0")], stash := [],
    indexFile := .jsonArray [], now := 0 }

/-- Two snapshots for the LIFO witness scenario: the file `a` is set to "1",
snapshotted, set to "2", snapshotted. -/
def c5Scen : List (Str × Tree) :=
  [(toStr "one", [(toStr "a", toStr "1")]), (toStr "two", [(toStr "a", toStr "2")])]

theorem c5_lifo_undo_witness :
    TraceMatches (undoTrace c5Scen.length (setupSnapshots c5Scen c5St0))
      (expectedUndo c5St0.head (c5Scen.map (fun pv => pv.2)).reverse) ∧
    (undoN c5Scen.length (setupSnapshots c5Scen c5St0)).stash = [] ∧
    readSnapshotStack (undoN c5Scen.length (setupSnapshots c5Scen c5St0)).indexFile = [] :=
  c5_lifo_undo c5Scen c5St0 rfl rfl rfl (by decide) (by decide)

/-- Creation scenario refuting the original C5 claim: the single snapshot's
file-touching activity creates the new file `b`; the tracked file `a` is left
unchanged. -/
def c5cScen : List (Str × Tree) :=
  [(toStr "one", [(toStr "a", toStr "0"), (toStr "b", toStr "1")])]

/-- Undoing the creation snapshot leaves the created file in place: the patch
extracted by `git stash show --patch` omits the untracked file, so neither the
checkout nor the re-materialisation ever touches it. -/
lemma c5c_b_after :
    lookupT (applyLatestSnapshot (setupSnapshots c5cScen c5St0)).2.worktree (toStr "b") =
      some (toStr "1") := by
  rw [applyLatestSnapshot_eq (setupSnapshots c5cScen c5St0) (by decide)]
  rw [show prunedOf (setupSnapshots c5cScen c5St0) =
    [] ++ [mkSnapshotLabel 0 (toStr "one")] from by decide]
  rw [if_neg (show ¬ ((([] ++ [mkSnapshotLabel 0 (toStr "one")] : List Str)).length ≠
    (readSnapshotStack (setupSnapshots c5cScen c5St0).indexFile).length) from by decide)]
  rw [applyLoop_found [] (mkSnapshotLabel 0 (toStr "one"))
    (listStashEntries (setupSnapshots c5cScen c5St0)) (setupSnapshots c5cScen c5St0)
    (0, ⟨stashSubject (mkSnapshotLabel 0 (toStr "one")),
      diffT c5St0.head [(toStr "a", toStr "0"), (toStr "b", toStr "1")]⟩)
    (by decide)]
  decide

/-- C5 counterexample: one `createSnapshot` whose file-touching activity
creates a new file, followed by one `applyLatestSnapshot`, does not restore
the pre-activity state: `git stash show --patch` (run without `-u`) omits the
untracked file from the extracted patch, so the undo leaves the created file
in the working tree instead of returning to the head state — the undo trace
does not match the LIFO-expected trace, contradicting the claim that any
sequence of snapshots over file-touching activity is undone in exact reverse
order. -/
theorem c5_counterexample :
    ¬ TraceMatches (undoTrace c5cScen.length (setupSnapshots c5cScen c5St0))
        (expectedUndo c5St0.head (c5cScen.map (fun pv => pv.2)).reverse) := by
  intro h
  have h' : TraceMatches
      [((applyLatestSnapshot (setupSnapshots c5cScen c5St0)).1,
        (applyLatestSnapshot (setupSnapshots c5cScen c5St0)).2.worktree)]
      [({ applied := true, remaining := some 0, reason := none }, c5St0.head)] := h
  have hw := ((TraceMatches_cons _ _ _ _ _ _).mp h').2.1 (toStr "b")
  rw [c5c_b_after] at hw
  exact absurd hw (by decide)

end CodexDevday
